import Mathlib

/-!
Verification of the remote-job-aggregator core pipeline
(normalization, classification, deduplication) against its
natural-language specification.

Text is modeled as `List Char` (`Str`).  Python's `str.lower()` /
`str.upper()` are modeled charwise with `Char.toLower` / `Char.toUpper`
(ASCII case folding; the CJK characters appearing in the keyword tables
have no case).  Python's substring test `kw in s` is `hasSub kw s`.
-/

set_option maxHeartbeats 1000000

abbrev Str := List Char

def lc (s : String) : Str := s.data

/-- Python `str.lower()`, charwise. -/
def lowerL (s : Str) : Str := s.map Char.toLower

/-- Python `str.upper()`, charwise. -/
def upperL (s : Str) : Str := s.map Char.toUpper

/-- Python substring containment `kw in s`. -/
def hasSub (kw : Str) : Str → Bool
  | [] => kw.isEmpty
  | c :: rest => kw.isPrefixOf (c :: rest) || hasSub kw rest

namespace DatabaseClient

/-! ### `DatabaseClient._normalize_text` (src/scraper/utils/database.py lines 69-81)

```python
text = text.lower()
text = re.sub(r'[【\[（(].*?[】\]）)]', '', text)   # remove bracketed content
text = re.sub(r'[\s\-_,，。、：:；;！!？?·.]+', '', text)
text = re.sub(r'(高级|资深|senior|junior|初级)', '', text)
```
-/

/-- Opening brackets of the lazy bracket-stripping regex. -/
def isOpenBracket (c : Char) : Bool :=
  c = '【' || c = '[' || c = '（' || c = '('

/-- Closing brackets of the lazy bracket-stripping regex. -/
def isCloseBracket (c : Char) : Bool :=
  c = '】' || c = ']' || c = '）' || c = ')'

/-- Python's `\s` (ASCII portion; the repository's keyword tables and the
inputs exercised here contain no exotic Unicode spaces). -/
def isPyWs (c : Char) : Bool :=
  c = ' ' || c = '\t' || c = '\n' || c = '\r' || c = '\x0b' || c = '\x0c'

/-- Character class `[\s\-_,，。、：:；;！!？?·.]` of the punctuation regex. -/
def isPunct (c : Char) : Bool :=
  isPyWs c ||
    (['-', '_', ',', '，', '。', '、', '：', ':', '；', ';',
      '！', '!', '？', '?', '·', '.'].contains c)

/-- Lazy search for the nearest closing bracket.  `.` in the pattern does not
match a newline, so the scan fails upon `'\n'`.  Returns the remainder of the
string after the closing bracket. -/
def findClose : Str → Option Str
  | [] => none
  | c :: rest =>
    if isCloseBracket c then some rest
    else if c = '\n' then none
    else findClose rest

/-- `re.sub(r'[【\[（(].*?[】\]）)]', '', text)`: left-to-right scan, at each
opening bracket the lazy match reaches the nearest closing bracket (if any,
with no newline in between); a failed match keeps the character.  The fuel is
the length of the string; every step consumes at least one character. -/
def stripBracketsAux : Nat → Str → Str
  | 0, s => s
  | _ + 1, [] => []
  | fuel + 1, c :: rest =>
    if isOpenBracket c then
      match findClose rest with
      | some rest2 => stripBracketsAux fuel rest2
      | none => c :: stripBracketsAux fuel rest
    else c :: stripBracketsAux fuel rest

def stripBrackets (s : Str) : Str := stripBracketsAux s.length s

/-- `re.sub(r'[\s\-_,，。、：:；;！!？?·.]+', '', text)`: delete every
character of the class. -/
def stripPunct (s : Str) : Str := s.filter (fun c => !isPunct c)

/-- The seniority filler words of `re.sub(r'(高级|资深|senior|junior|初级)', '', text)`.
Their first characters are pairwise distinct, so at any position at most one
alternative matches and left-to-right replacement is the scan below. -/
def fillerWords : List Str :=
  [lc "高级", lc "资深", lc "senior", lc "junior", lc "初级"]

def stripFillerAux : Nat → Str → Str
  | 0, s => s
  | _ + 1, [] => []
  | fuel + 1, c :: rest =>
    match fillerWords.find? (fun w => w.isPrefixOf (c :: rest)) with
    | some w => stripFillerAux fuel ((c :: rest).drop w.length)
    | none => c :: stripFillerAux fuel rest

def stripFiller (s : Str) : Str := stripFillerAux s.length s

/-- `DatabaseClient._normalize_text`. -/
def normalizeText (s : Str) : Str :=
  stripFiller (stripPunct (stripBrackets (lowerL s)))

theorem findClose_mem {s r : Str} (h : findClose s = some r) :
    ∀ c, c ∈ r → c ∈ s := by
  induction s with
  | nil => simp [findClose] at h
  | cons a rest ih =>
    intro c hc
    rw [findClose] at h
    by_cases ha : isCloseBracket a
    · simp [ha] at h
      subst h
      exact List.mem_cons_of_mem _ hc
    · simp [ha] at h
      by_cases hn : a = '\n'
      · simp [hn] at h
      · simp [hn] at h
        exact List.mem_cons_of_mem _ (ih h c hc)

theorem mem_stripBracketsAux {n : Nat} {s : Str} :
    ∀ c, c ∈ stripBracketsAux n s → c ∈ s := by
  induction n generalizing s with
  | zero => simp [stripBracketsAux]
  | succ n ih =>
    cases s with
    | nil => simp [stripBracketsAux]
    | cons a rest =>
      intro c hc
      rw [stripBracketsAux] at hc
      by_cases ha : isOpenBracket a
      · simp only [ha, if_true] at hc
        cases hfc : findClose rest with
        | some rest2 =>
          rw [hfc] at hc
          exact List.mem_cons_of_mem _ (findClose_mem hfc c (ih c hc))
        | none =>
          rw [hfc] at hc
          rcases List.mem_cons.1 hc with h | h
          · exact h ▸ List.mem_cons_self _ _
          · exact List.mem_cons_of_mem _ (ih c h)
      · simp only [ha, if_false] at hc
        rcases List.mem_cons.1 hc with h | h
        · exact h ▸ List.mem_cons_self _ _
        · exact List.mem_cons_of_mem _ (ih c h)

theorem mem_stripBrackets {s : Str} : ∀ c, c ∈ stripBrackets s → c ∈ s :=
  fun c hc => mem_stripBracketsAux c hc

theorem mem_stripFillerAux {n : Nat} {s : Str} :
    ∀ c, c ∈ stripFillerAux n s → c ∈ s := by
  induction n generalizing s with
  | zero => simp [stripFillerAux]
  | succ n ih =>
    cases s with
    | nil => simp [stripFillerAux]
    | cons a rest =>
      intro c hc
      rw [stripFillerAux] at hc
      cases hfw : fillerWords.find? (fun w => w.isPrefixOf (a :: rest)) with
      | some w =>
        rw [hfw] at hc
        exact List.mem_of_mem_drop (ih c hc)
      | none =>
        rw [hfw] at hc
        rcases List.mem_cons.1 hc with h | h
        · exact h ▸ List.mem_cons_self _ _
        · exact List.mem_cons_of_mem _ (ih c h)

theorem mem_stripFiller {s : Str} : ∀ c, c ∈ stripFiller s → c ∈ s :=
  fun c hc => mem_stripFillerAux c hc

theorem mem_stripPunct {s : Str} : ∀ c, c ∈ stripPunct s → c ∈ s :=
  fun _ hc => List.mem_of_mem_filter hc

theorem stripPunct_not_punct {s : Str} :
    ∀ c, c ∈ stripPunct s → isPunct c = false := by
  intro c hc
  have := List.of_mem_filter hc
  simpa using this

theorem toLower_idem (c : Char) : c.toLower.toLower = c.toLower := by
  unfold Char.toLower
  by_cases h : c.toNat ≥ 65 ∧ c.toNat ≤ 90
  · rw [if_pos h]
    have hvalid : (c.toNat + 32).isValidChar := Or.inl (by omega)
    have hval : (Char.ofNat (c.toNat + 32)).toNat = c.toNat + 32 := by
      simp only [Char.ofNat]
      rw [dif_pos hvalid]
      rfl
    rw [hval, if_neg (by omega)]
  · rw [if_neg h, if_neg h]

theorem map_toLower_eq_self {s : Str} (h : ∀ c ∈ s, c.toLower = c) :
    lowerL s = s := by
  unfold lowerL
  induction s with
  | nil => rfl
  | cons a rest ih =>
    simp only [List.map_cons]
    rw [h a (List.mem_cons_self _ _), ih (fun c hc => h c (List.mem_cons_of_mem _ hc))]

/-- Every character surviving normalization is a fixed point of lower-casing. -/
theorem normalizeText_lower_fixed {t : Str} :
    ∀ c ∈ normalizeText t, c.toLower = c := by
  intro c hc
  unfold normalizeText at hc
  have h1 : c ∈ lowerL t :=
    mem_stripBrackets c (mem_stripPunct c (mem_stripFiller c hc))
  unfold lowerL at h1
  rcases List.mem_map.1 h1 with ⟨c0, _, hc0⟩
  rw [← hc0]
  exact toLower_idem c0

theorem normalizeText_no_punct {t : Str} :
    ∀ c ∈ normalizeText t, isPunct c = false := by
  intro c hc
  unfold normalizeText at hc
  exact stripPunct_not_punct c (mem_stripFiller c hc)

theorem stripPunct_eq_self {s : Str} (h : ∀ c ∈ s, isPunct c = false) :
    stripPunct s = s := by
  unfold stripPunct
  rw [List.filter_eq_self]
  intro c hc
  simp [h c hc]

/-- C1, amended: `normalize` is idempotent on every input whose normal form is
left unchanged by another round of bracket stripping and of filler-word
stripping (deleting characters can create a new bracketed segment or a new
filler word, which a second pass then removes). -/
theorem normalizeText_idem_of_stable {t : Str}
    (hb : stripBrackets (normalizeText t) = normalizeText t)
    (hf : stripFiller (normalizeText t) = normalizeText t) :
    normalizeText (normalizeText t) = normalizeText t := by
  have hlow : lowerL (normalizeText t) = normalizeText t :=
    map_toLower_eq_self normalizeText_lower_fixed
  have hpun : stripPunct (normalizeText t) = normalizeText t :=
    stripPunct_eq_self normalizeText_no_punct
  calc normalizeText (normalizeText t)
      = stripFiller (stripPunct (stripBrackets (lowerL (normalizeText t)))) := rfl
    _ = normalizeText t := by rw [hlow, hb, hpun, hf]

end DatabaseClient

/-- C1: the text normalizer is NOT idempotent as claimed: removing the filler
word `senior` from `senseniorior` leaves `senior`, which a second pass removes
entirely, so `normalize(normalize(t)) ≠ normalize(t)` at `t = "senseniorior"`. -/
theorem c1_counterexample :
    DatabaseClient.normalizeText (DatabaseClient.normalizeText (lc "senseniorior")) ≠
      DatabaseClient.normalizeText (lc "senseniorior") := by
  decide

/-- C1 (amended): idempotence of the normalizer on inputs whose normal form is
stable under a second round of bracket and filler stripping. -/
theorem c1_theorem (t : Str)
    (hb : DatabaseClient.stripBrackets (DatabaseClient.normalizeText t) =
      DatabaseClient.normalizeText t)
    (hf : DatabaseClient.stripFiller (DatabaseClient.normalizeText t) =
      DatabaseClient.normalizeText t) :
    DatabaseClient.normalizeText (DatabaseClient.normalizeText t) =
      DatabaseClient.normalizeText t :=
  DatabaseClient.normalizeText_idem_of_stable hb hf

/-- Witness for C1 at the concrete title `"High-Level Dev"`. -/
theorem c1_witness :
    DatabaseClient.normalizeText (DatabaseClient.normalizeText (lc "High-Level Dev")) =
      DatabaseClient.normalizeText (lc "High-Level Dev") :=
  c1_theorem (lc "High-Level Dev") (by decide) (by decide)

namespace AIClassifier

/-! ### `AIClassifier` (src/scraper/utils/ai_classifier.py)

The LLM transport is modeled as an `Except Unit Str` argument: `.error ()`
stands for any transport or parse exception raised by `_call_llm`, `.ok ans`
for the text content returned by a successful call. -/

/-- The fixed 14-key taxonomy `CATEGORY_KEYS` (ai_classifier.py lines 8-12). -/
def CATEGORY_KEYS : List Str :=
  [lc "frontend", lc "backend", lc "fullstack", lc "mobile", lc "game",
   lc "devops", lc "ai", lc "blockchain", lc "quant", lc "security",
   lc "testing", lc "data", lc "embedded", lc "other"]

/-- `any(k in t for k in kws)`. -/
def anyKw (kws : List Str) (t : Str) : Bool := kws.any (fun k => hasSub k t)

def fullstack_kw : List Str :=
  [lc "全栈", lc "fullstack", lc "full-stack", lc "full stack"]

def testing_kw : List Str :=
  [lc "测试", lc "qa", lc "test", lc "quality", lc "sdet"]

def ai_kw : List Str :=
  [lc "ai", lc "ml", lc "算法", lc "机器学习", lc "machine learning",
   lc "deep learning", lc "深度学习", lc "nlp", lc "data scien",
   lc "人工智能", lc "llm", lc "gpt", lc "大模型"]

def mobile_kw : List Str :=
  [lc "android", lc "ios", lc "flutter", lc "react native", lc "swift",
   lc "kotlin", lc "移动", lc "mobile", lc "app开发", lc "app 开发",
   lc "安卓", lc "鸿蒙", lc "harmonyos"]

def backend_kw : List Str :=
  [lc "后端", lc "backend", lc "server", lc "服务端", lc "java", lc "python",
   lc "golang", lc "go ", lc "node", lc "php", lc "ruby", lc "rust", lc "c++"]

def frontend_kw : List Str :=
  [lc "前端", lc "frontend", lc "front-end", lc "react", lc "vue",
   lc "angular", lc "css"]

def game_kw : List Str :=
  [lc "unity", lc "unreal", lc "cocos", lc "游戏", lc "game", lc "u3d",
   lc "ue4", lc "ue5", lc "godot", lc "cryengine", lc "mmorpg", lc "rpg"]

def backend_kw_game : List Str :=
  [lc "后端", lc "backend", lc "server", lc "服务端", lc "服务器"]

def frontend_kw_game : List Str :=
  [lc "前端", lc "frontend", lc "front-end", lc "web"]

def blockchain_kw : List Str :=
  [lc "区块链", lc "blockchain", lc "web3", lc "solidity", lc "智能合约",
   lc "smart contract", lc "crypto", lc "defi", lc "nft", lc "dex", lc "cex",
   lc "交易所", lc "solana", lc "ethereum", lc "eth", lc "token"]

def non_dev_kw : List Str :=
  [lc "customer success", lc "sales engineer", lc "solutions engineer",
   lc "account manager", lc "account executive", lc "business development"]

/-- The repeated pattern
`if key in categories and not any(k in t for k in kws): categories = [c for c in categories if c != key]`
used for the fullstack / testing / ai / blockchain rules. -/
def removalStep (kws : List Str) (key : Str) (t : Str) (cs : List Str) : List Str :=
  if cs.contains key && !anyKw kws t then cs.filter (fun c => c != key) else cs

/-- `if key not in categories: categories.append(key)`. -/
def ensureKey (key : Str) (cs : List Str) : List Str :=
  if cs.contains key then cs else cs ++ [key]

/-- The repeated mobile / game pattern: on a trigger keyword in the title,
force-add `key`, then strip backend / frontend unless those have independent
title evidence (`_enforce_category_rules` lines 152-180).  The two strips
have exactly the shape of `removalStep`. -/
def forceStep (trigKw bkKw frKw : List Str) (key : Str) (t : Str) (cs : List Str) :
    List Str :=
  if anyKw trigKw t then
    removalStep frKw (lc "frontend") t
      (removalStep bkKw (lc "backend") t (ensureKey key cs))
  else cs

def stepFullstack (t : Str) (cs : List Str) : List Str :=
  removalStep fullstack_kw (lc "fullstack") t cs

def stepTesting (t : Str) (cs : List Str) : List Str :=
  removalStep testing_kw (lc "testing") t cs

def stepAi (t : Str) (cs : List Str) : List Str :=
  removalStep ai_kw (lc "ai") t cs

def stepMobile (t : Str) (cs : List Str) : List Str :=
  forceStep mobile_kw backend_kw frontend_kw (lc "mobile") t cs

def stepGame (t : Str) (cs : List Str) : List Str :=
  forceStep game_kw backend_kw_game frontend_kw_game (lc "game") t cs

def stepBlockchain (t : Str) (cs : List Str) : List Str :=
  removalStep blockchain_kw (lc "blockchain") t cs

/-- `if any(k in t for k in non_dev_kw): categories = ['other']`. -/
def stepNonDev (t : Str) (cs : List Str) : List Str :=
  if anyKw non_dev_kw t then [lc "other"] else cs

/-- `if not categories: categories = ['other']`. -/
def stepEmptyFallback (cs : List Str) : List Str :=
  if cs.isEmpty then [lc "other"] else cs

/-- `AIClassifier._enforce_category_rules` (lines 127-199): lower-case the
title, then apply the eight keyword-gated rules in program order. -/
def enforceCategoryRules (title : Str) (cs : List Str) : List Str :=
  stepEmptyFallback (stepNonDev (lowerL title) (stepBlockchain (lowerL title)
    (stepGame (lowerL title) (stepMobile (lowerL title) (stepAi (lowerL title)
      (stepTesting (lowerL title) (stepFullstack (lowerL title) cs)))))))

/-- The final step of `classify_category` (lines 272-273): remove `other`
when real categories are present alongside it. -/
def dropOther (cs : List Str) : List Str :=
  if cs.length > 1 && cs.contains (lc "other") then
    cs.filter (fun c => c != lc "other")
  else cs

/-- The full deterministic correction layer of §4.4 (a)-(e): the keyword
rules followed by the `other`-dropping step. -/
def correctionLayer (title : Str) (cs : List Str) : List Str :=
  dropOther (enforceCategoryRules title cs)

/-- Python `answer.split(",")`. -/
def splitOnComma : Str → List Str
  | [] => [[]]
  | c :: rest =>
    if c = ',' then [] :: splitOnComma rest
    else
      match splitOnComma rest with
      | p :: ps => (c :: p) :: ps
      | [] => [[c]]

/-- Python `str.strip()`. -/
def stripWs (s : Str) : Str :=
  ((s.dropWhile DatabaseClient.isPyWs).reverse.dropWhile DatabaseClient.isPyWs).reverse

/-- Lines 264-268 of `classify_category`: lower-case the answer, split on
commas, strip each piece, keep only taxonomy keys. -/
def parsedKeys (ans : Str) : List Str :=
  (((splitOnComma (lowerL ans)).map stripWs).filter (fun k => CATEGORY_KEYS.contains k))

/-- The `if not categories: categories = ["other"]` fallback of line 267-268. -/
def validatedKeys (ans : Str) : List Str :=
  if (parsedKeys ans).isEmpty then [lc "other"] else parsedKeys ans

/-- `AIClassifier.classify_category` (lines 201-278): on any transport or
parse error return `['other']`; otherwise validate the model's keys, apply
the correction rules, and drop `other` next to real categories. -/
def classifyCategory (title : Str) (llm : Except Unit Str) : List Str :=
  match llm with
  | .error _ => [lc "other"]
  | .ok ans => dropOther (enforceCategoryRules title (validatedKeys ans))

/-- `AIClassifier.is_job_posting` (lines 88-125): any exception from the
model call returns `True`; a successful call returns whether `"JOB"` occurs
in the upper-cased answer. -/
def isJobPosting (llm : Except Unit Str) : Bool :=
  match llm with
  | .error _ => true
  | .ok ans => hasSub (lc "JOB") (upperL ans)

end AIClassifier

namespace AIClassifier

theorem contains_true_iff {l : List Str} {a : Str} : l.contains a = true ↔ a ∈ l := by
  simp [List.contains, List.elem_iff]

theorem mem_removalStep {kws : List Str} {key t : Str} {cs : List Str} {x : Str}
    (h : x ∈ removalStep kws key t cs) : x ∈ cs := by
  unfold removalStep at h
  split at h
  · exact List.mem_of_mem_filter h
  · exact h

theorem removalStep_eq_self {kws : List Str} {key t : Str} {cs : List Str}
    (h : anyKw kws t = true ∨ key ∉ cs) : removalStep kws key t cs = cs := by
  unfold removalStep
  rcases h with h | h
  · simp [h]
  · have hc : cs.contains key = false :=
      Bool.eq_false_iff.mpr (fun hcc => h (contains_true_iff.mp hcc))
    rw [hc]
    rfl

theorem removalStep_notMem {kws : List Str} {key t : Str} {cs : List Str}
    (h : anyKw kws t = false) : key ∉ removalStep kws key t cs := by
  intro hmem
  unfold removalStep at hmem
  split at hmem
  · have := List.of_mem_filter hmem
    simp at this
  · next hcond =>
    rw [h] at hcond
    simp at hcond
    exact absurd (contains_true_iff.mpr hmem) (by simp [hcond])

theorem removalStep_mem_preserve {kws : List Str} {key t : Str} {cs : List Str} {x : Str}
    (hx : x ≠ key) (h : x ∈ cs) : x ∈ removalStep kws key t cs := by
  unfold removalStep
  split
  · exact List.mem_filter.mpr ⟨h, by simp [hx]⟩
  · exact h

theorem mem_ensureKey {key : Str} {cs : List Str} {x : Str}
    (h : x ∈ ensureKey key cs) : x ∈ cs ∨ x = key := by
  unfold ensureKey at h
  split at h
  · exact Or.inl h
  · rcases List.mem_append.1 h with h | h
    · exact Or.inl h
    · exact Or.inr (List.mem_singleton.1 h)

theorem ensureKey_mem {key : Str} {cs : List Str} : key ∈ ensureKey key cs := by
  unfold ensureKey
  split
  · next hc => exact contains_true_iff.mp hc
  · exact List.mem_append.2 (Or.inr (List.mem_singleton.2 rfl))

theorem ensureKey_eq_self {key : Str} {cs : List Str} (h : key ∈ cs) :
    ensureKey key cs = cs := by
  unfold ensureKey
  rw [if_pos (contains_true_iff.mpr h)]

theorem mem_forceStep {a b c : List Str} {key t : Str} {cs : List Str} {x : Str}
    (h : x ∈ forceStep a b c key t cs) : x ∈ cs ∨ x = key := by
  unfold forceStep at h
  split at h
  · exact mem_ensureKey (mem_removalStep (mem_removalStep h))
  · exact Or.inl h

theorem forceStep_mem_key {a b c : List Str} {key t : Str} {cs : List Str}
    (htrig : anyKw a t = true) (hk1 : key ≠ lc "backend") (hk2 : key ≠ lc "frontend") :
    key ∈ forceStep a b c key t cs := by
  unfold forceStep
  rw [if_pos htrig]
  exact removalStep_mem_preserve hk2 (removalStep_mem_preserve hk1 ensureKey_mem)

theorem forceStep_notMem_backend {a b c : List Str} {key t : Str} {cs : List Str}
    (htrig : anyKw a t = true) (hbk : anyKw b t = false) :
    lc "backend" ∉ forceStep a b c key t cs := by
  unfold forceStep
  rw [if_pos htrig]
  intro hmem
  exact removalStep_notMem hbk (mem_removalStep hmem)

theorem forceStep_notMem_frontend {a b c : List Str} {key t : Str} {cs : List Str}
    (htrig : anyKw a t = true) (hfr : anyKw c t = false) :
    lc "frontend" ∉ forceStep a b c key t cs := by
  unfold forceStep
  rw [if_pos htrig]
  exact removalStep_notMem hfr

theorem forceStep_eq_self_of_neg {a b c : List Str} {key t : Str} {cs : List Str}
    (htrig : anyKw a t = false) : forceStep a b c key t cs = cs := by
  unfold forceStep
  rw [htrig]
  simp

theorem forceStep_fix {a b c : List Str} {key t : Str} {cs : List Str}
    (hkey : key ∈ cs)
    (hb : anyKw b t = true ∨ lc "backend" ∉ cs)
    (hf : anyKw c t = true ∨ lc "frontend" ∉ cs) :
    forceStep a b c key t cs = cs := by
  unfold forceStep
  split
  · rw [ensureKey_eq_self hkey, removalStep_eq_self hb, removalStep_eq_self hf]
  · rfl

theorem stepNonDev_pos {t : Str} {cs : List Str} (h : anyKw non_dev_kw t = true) :
    stepNonDev t cs = [lc "other"] := by
  simp [stepNonDev, h]

theorem stepNonDev_neg {t : Str} {cs : List Str} (h : anyKw non_dev_kw t = false) :
    stepNonDev t cs = cs := by
  simp [stepNonDev, h]

theorem mem_stepNonDev {t : Str} {cs : List Str} {x : Str}
    (h : x ∈ stepNonDev t cs) : x ∈ cs ∨ x = lc "other" := by
  unfold stepNonDev at h
  split at h
  · exact Or.inr (List.mem_singleton.1 h)
  · exact Or.inl h

theorem stepEmptyFallback_of_ne {cs : List Str} (h : cs ≠ []) :
    stepEmptyFallback cs = cs := by
  unfold stepEmptyFallback
  rw [if_neg]
  simpa using h

theorem mem_stepEmptyFallback {cs : List Str} {x : Str}
    (h : x ∈ stepEmptyFallback cs) : x ∈ cs ∨ x = lc "other" := by
  unfold stepEmptyFallback at h
  split at h
  · exact Or.inr (List.mem_singleton.1 h)
  · exact Or.inl h

theorem stepEmptyFallback_ne_nil {cs : List Str} : stepEmptyFallback cs ≠ [] := by
  unfold stepEmptyFallback
  split
  · simp
  · next h => simpa using h

theorem enforce_ne_nil {title : Str} {cs : List Str} :
    enforceCategoryRules title cs ≠ [] := by
  unfold enforceCategoryRules
  exact stepEmptyFallback_ne_nil

theorem enforce_of_nonDev {title : Str} {cs : List Str}
    (h : anyKw non_dev_kw (lowerL title) = true) :
    enforceCategoryRules title cs = [lc "other"] := by
  unfold enforceCategoryRules
  rw [stepNonDev_pos h]
  rfl

/-- Everything in the output of the rule chain was either in the input or is
one of the force-added `mobile` / `game` keys or the fallback `other`. -/
theorem mem_enforce {title : Str} {cs : List Str} {x : Str}
    (h : x ∈ enforceCategoryRules title cs) :
    x ∈ cs ∨ x = lc "mobile" ∨ x = lc "game" ∨ x = lc "other" := by
  unfold enforceCategoryRules at h
  rcases mem_stepEmptyFallback h with h | h
  · rcases mem_stepNonDev h with h | h
    · have h := mem_removalStep h
      rcases mem_forceStep h with h | h
      · rcases mem_forceStep h with h | h
        · exact Or.inl (mem_removalStep (mem_removalStep (mem_removalStep h)))
        · exact Or.inr (Or.inl h)
      · exact Or.inr (Or.inr (Or.inl h))
    · exact Or.inr (Or.inr (Or.inr h))
  · exact Or.inr (Or.inr (Or.inr h))

theorem ensureKey_preserve {key : Str} {cs : List Str} {x : Str} (h : x ∈ cs) :
    x ∈ ensureKey key cs := by
  unfold ensureKey
  split
  · exact h
  · exact List.mem_append_left _ h

theorem forceStep_mem_preserve {a b c : List Str} {key t : Str} {cs : List Str} {x : Str}
    (hx1 : x ≠ lc "backend") (hx2 : x ≠ lc "frontend") (h : x ∈ cs) :
    x ∈ forceStep a b c key t cs := by
  unfold forceStep
  split
  · exact removalStep_mem_preserve hx2 (removalStep_mem_preserve hx1 (ensureKey_preserve h))
  · exact h

theorem fullstack_notMem_enforce {title : Str} {cs : List Str}
    (h : anyKw fullstack_kw (lowerL title) = false) :
    lc "fullstack" ∉ enforceCategoryRules title cs := by
  intro hmem
  unfold enforceCategoryRules at hmem
  rcases mem_stepEmptyFallback hmem with hmem | heq
  · rcases mem_stepNonDev hmem with hmem | heq
    · have hmem := mem_removalStep hmem
      rcases mem_forceStep hmem with hmem | heq
      · rcases mem_forceStep hmem with hmem | heq
        · exact removalStep_notMem h (mem_removalStep (mem_removalStep hmem))
        · exact (by decide : lc "fullstack" ≠ lc "mobile") heq
      · exact (by decide : lc "fullstack" ≠ lc "game") heq
    · exact (by decide : lc "fullstack" ≠ lc "other") heq
  · exact (by decide : lc "fullstack" ≠ lc "other") heq

theorem testing_notMem_enforce {title : Str} {cs : List Str}
    (h : anyKw testing_kw (lowerL title) = false) :
    lc "testing" ∉ enforceCategoryRules title cs := by
  intro hmem
  unfold enforceCategoryRules at hmem
  rcases mem_stepEmptyFallback hmem with hmem | heq
  · rcases mem_stepNonDev hmem with hmem | heq
    · have hmem := mem_removalStep hmem
      rcases mem_forceStep hmem with hmem | heq
      · rcases mem_forceStep hmem with hmem | heq
        · exact removalStep_notMem h (mem_removalStep hmem)
        · exact (by decide : lc "testing" ≠ lc "mobile") heq
      · exact (by decide : lc "testing" ≠ lc "game") heq
    · exact (by decide : lc "testing" ≠ lc "other") heq
  · exact (by decide : lc "testing" ≠ lc "other") heq

theorem ai_notMem_enforce {title : Str} {cs : List Str}
    (h : anyKw ai_kw (lowerL title) = false) :
    lc "ai" ∉ enforceCategoryRules title cs := by
  intro hmem
  unfold enforceCategoryRules at hmem
  rcases mem_stepEmptyFallback hmem with hmem | heq
  · rcases mem_stepNonDev hmem with hmem | heq
    · have hmem := mem_removalStep hmem
      rcases mem_forceStep hmem with hmem | heq
      · rcases mem_forceStep hmem with hmem | heq
        · exact removalStep_notMem h hmem
        · exact (by decide : lc "ai" ≠ lc "mobile") heq
      · exact (by decide : lc "ai" ≠ lc "game") heq
    · exact (by decide : lc "ai" ≠ lc "other") heq
  · exact (by decide : lc "ai" ≠ lc "other") heq

theorem blockchain_notMem_enforce {title : Str} {cs : List Str}
    (h : anyKw blockchain_kw (lowerL title) = false) :
    lc "blockchain" ∉ enforceCategoryRules title cs := by
  intro hmem
  unfold enforceCategoryRules at hmem
  rcases mem_stepEmptyFallback hmem with hmem | heq
  · rcases mem_stepNonDev hmem with hmem | heq
    · exact removalStep_notMem h hmem
    · exact (by decide : lc "blockchain" ≠ lc "other") heq
  · exact (by decide : lc "blockchain" ≠ lc "other") heq

theorem backend_notMem_enforce_mobile {title : Str} {cs : List Str}
    (hmob : anyKw mobile_kw (lowerL title) = true)
    (hbk : anyKw backend_kw (lowerL title) = false) :
    lc "backend" ∉ enforceCategoryRules title cs := by
  intro hmem
  unfold enforceCategoryRules at hmem
  rcases mem_stepEmptyFallback hmem with hmem | heq
  · rcases mem_stepNonDev hmem with hmem | heq
    · have hmem := mem_removalStep hmem
      rcases mem_forceStep hmem with hmem | heq
      · exact forceStep_notMem_backend hmob hbk hmem
      · exact (by decide : lc "backend" ≠ lc "game") heq
    · exact (by decide : lc "backend" ≠ lc "other") heq
  · exact (by decide : lc "backend" ≠ lc "other") heq

theorem backend_notMem_enforce_game {title : Str} {cs : List Str}
    (hgame : anyKw game_kw (lowerL title) = true)
    (hbk : anyKw backend_kw_game (lowerL title) = false) :
    lc "backend" ∉ enforceCategoryRules title cs := by
  intro hmem
  unfold enforceCategoryRules at hmem
  rcases mem_stepEmptyFallback hmem with hmem | heq
  · rcases mem_stepNonDev hmem with hmem | heq
    · exact forceStep_notMem_backend hgame hbk (mem_removalStep hmem)
    · exact (by decide : lc "backend" ≠ lc "other") heq
  · exact (by decide : lc "backend" ≠ lc "other") heq

theorem frontend_notMem_enforce_mobile {title : Str} {cs : List Str}
    (hmob : anyKw mobile_kw (lowerL title) = true)
    (hfr : anyKw frontend_kw (lowerL title) = false) :
    lc "frontend" ∉ enforceCategoryRules title cs := by
  intro hmem
  unfold enforceCategoryRules at hmem
  rcases mem_stepEmptyFallback hmem with hmem | heq
  · rcases mem_stepNonDev hmem with hmem | heq
    · have hmem := mem_removalStep hmem
      rcases mem_forceStep hmem with hmem | heq
      · exact forceStep_notMem_frontend hmob hfr hmem
      · exact (by decide : lc "frontend" ≠ lc "game") heq
    · exact (by decide : lc "frontend" ≠ lc "other") heq
  · exact (by decide : lc "frontend" ≠ lc "other") heq

theorem frontend_notMem_enforce_game {title : Str} {cs : List Str}
    (hgame : anyKw game_kw (lowerL title) = true)
    (hfr : anyKw frontend_kw_game (lowerL title) = false) :
    lc "frontend" ∉ enforceCategoryRules title cs := by
  intro hmem
  unfold enforceCategoryRules at hmem
  rcases mem_stepEmptyFallback hmem with hmem | heq
  · rcases mem_stepNonDev hmem with hmem | heq
    · exact forceStep_notMem_frontend hgame hfr (mem_removalStep hmem)
    · exact (by decide : lc "frontend" ≠ lc "other") heq
  · exact (by decide : lc "frontend" ≠ lc "other") heq

theorem mobile_mem_enforce {title : Str} {cs : List Str}
    (hmob : anyKw mobile_kw (lowerL title) = true)
    (hnd : anyKw non_dev_kw (lowerL title) = false) :
    lc "mobile" ∈ enforceCategoryRules title cs := by
  have h1 : lc "mobile" ∈ stepMobile (lowerL title)
      (stepAi (lowerL title) (stepTesting (lowerL title) (stepFullstack (lowerL title) cs))) :=
    forceStep_mem_key hmob (by decide) (by decide)
  have h2 : lc "mobile" ∈ stepGame (lowerL title) (stepMobile (lowerL title)
      (stepAi (lowerL title) (stepTesting (lowerL title) (stepFullstack (lowerL title) cs)))) :=
    forceStep_mem_preserve (by decide) (by decide) h1
  have h3 : lc "mobile" ∈ stepBlockchain (lowerL title) (stepGame (lowerL title)
      (stepMobile (lowerL title) (stepAi (lowerL title) (stepTesting (lowerL title)
        (stepFullstack (lowerL title) cs))))) :=
    removalStep_mem_preserve (by decide) h2
  unfold enforceCategoryRules
  rw [stepNonDev_neg hnd, stepEmptyFallback_of_ne (List.ne_nil_of_mem h3)]
  exact h3

theorem game_mem_enforce {title : Str} {cs : List Str}
    (hgame : anyKw game_kw (lowerL title) = true)
    (hnd : anyKw non_dev_kw (lowerL title) = false) :
    lc "game" ∈ enforceCategoryRules title cs := by
  have h2 : lc "game" ∈ stepGame (lowerL title) (stepMobile (lowerL title)
      (stepAi (lowerL title) (stepTesting (lowerL title) (stepFullstack (lowerL title) cs)))) :=
    forceStep_mem_key hgame (by decide) (by decide)
  have h3 : lc "game" ∈ stepBlockchain (lowerL title) (stepGame (lowerL title)
      (stepMobile (lowerL title) (stepAi (lowerL title) (stepTesting (lowerL title)
        (stepFullstack (lowerL title) cs))))) :=
    removalStep_mem_preserve (by decide) h2
  unfold enforceCategoryRules
  rw [stepNonDev_neg hnd, stepEmptyFallback_of_ne (List.ne_nil_of_mem h3)]
  exact h3

theorem mem_dropOther {cs : List Str} {x : Str} (h : x ∈ dropOther cs) : x ∈ cs := by
  unfold dropOther at h
  split at h
  · exact List.mem_of_mem_filter h
  · exact h

theorem mem_dropOther_of_ne {cs : List Str} {x : Str} (hx : x ≠ lc "other")
    (h : x ∈ cs) : x ∈ dropOther cs := by
  unfold dropOther
  split
  · exact List.mem_filter.mpr ⟨h, by simp [hx]⟩
  · exact h

theorem dropOther_idem {cs : List Str} : dropOther (dropOther cs) = dropOther cs := by
  by_cases hcond : (cs.length > 1 && cs.contains (lc "other")) = true
  · have hv : dropOther cs = cs.filter (fun c => c != lc "other") := by
      unfold dropOther
      rw [if_pos hcond]
    rw [hv]
    have hno : (cs.filter (fun c => c != lc "other")).contains (lc "other") = false := by
      apply Bool.eq_false_iff.mpr
      intro hc
      have := List.of_mem_filter (contains_true_iff.mp hc)
      simp at this
    unfold dropOther
    rw [hno]
    simp
  · have hv : dropOther cs = cs := by
      unfold dropOther
      rw [if_neg hcond]
    rw [hv, hv]

theorem dropOther_eq_nil_cases {cs : List Str} (h : dropOther cs = []) :
    cs = [] ∨ (1 < cs.length ∧ ∀ x ∈ cs, x = lc "other") := by
  unfold dropOther at h
  split at h
  · next hcond =>
    right
    constructor
    · have := (Bool.and_eq_true _ _).mp hcond |>.1
      simpa using this
    · intro x hx
      have := List.filter_eq_nil_iff.mp h x hx
      simpa using this
  · exact Or.inl h

theorem mem_validatedKeys {ans : Str} {x : Str} (h : x ∈ validatedKeys ans) :
    x ∈ CATEGORY_KEYS ∨ x = lc "other" := by
  unfold validatedKeys at h
  split at h
  · exact Or.inr (List.mem_singleton.1 h)
  · exact Or.inl (contains_true_iff.mp (List.of_mem_filter h))

end AIClassifier

theorem hasSub_iff {kw s : Str} : hasSub kw s = true ↔ ∃ l r, s = l ++ kw ++ r := by
  induction s with
  | nil =>
    constructor
    · intro h
      have hkw : kw = [] := by simpa [hasSub, List.isEmpty_iff] using h
      exact ⟨[], [], by simp [hkw]⟩
    · rintro ⟨l, r, hlr⟩
      have h1 : l ++ kw ++ r = [] := hlr.symm
      rcases List.append_eq_nil.mp h1 with ⟨h2, h3⟩
      rcases List.append_eq_nil.mp h2 with ⟨_, h4⟩
      simp [hasSub, h4]
  | cons a rest ih =>
    rw [hasSub]
    constructor
    · intro h
      rcases Bool.or_eq_true _ _ |>.mp h with hp | hs
      · rcases List.isPrefixOf_iff_prefix.mp hp with ⟨t, ht⟩
        exact ⟨[], t, by simp [← ht]⟩
      · rcases ih.mp hs with ⟨l, r, hlr⟩
        exact ⟨a :: l, r, by simp [hlr]⟩
    · rintro ⟨l, r, hlr⟩
      apply Bool.or_eq_true _ _ |>.mpr
      cases l with
      | nil =>
        left
        apply List.isPrefixOf_iff_prefix.mpr
        exact ⟨r, by simpa using hlr.symm⟩
      | cons b l2 =>
        right
        injection hlr with h1 h2
        exact ih.mpr ⟨l2, r, h2⟩

/-- C4: the full correction layer (keyword rules plus `other`-dropping) is NOT
idempotent: on title `"x"` and category list `["other","other"]` one
application yields `[]` (the duplicate `other` entries defeat the
`len > 1 and "other" in categories` drop), and a second application yields
`["other"]`. -/
theorem c4_counterexample :
    AIClassifier.correctionLayer (lc "x")
        (AIClassifier.correctionLayer (lc "x") [lc "other", lc "other"]) ≠
      AIClassifier.correctionLayer (lc "x") [lc "other", lc "other"] := by
  decide

/-- C4 (amended): the correction layer is idempotent on every title and every
category list whose first corrected result is non-empty (equivalently, except
when the `other`-dropping step empties a list of two or more `other` copies). -/
theorem c4_theorem (title : Str) (cs : List Str)
    (h : AIClassifier.correctionLayer title cs ≠ []) :
    AIClassifier.correctionLayer title (AIClassifier.correctionLayer title cs) =
      AIClassifier.correctionLayer title cs := by
  open AIClassifier in
  by_cases hnd : anyKw non_dev_kw (lowerL title) = true
  · have h1 : correctionLayer title cs = [lc "other"] := by
      unfold correctionLayer
      rw [enforce_of_nonDev hnd]
      rfl
    rw [h1]
    unfold correctionLayer
    rw [enforce_of_nonDev hnd]
    rfl
  · have hnd' : anyKw non_dev_kw (lowerL title) = false := Bool.eq_false_iff.mpr hnd
    unfold correctionLayer at h ⊢
    have hsubv : ∀ x, x ∈ dropOther (enforceCategoryRules title cs) →
        x ∈ enforceCategoryRules title cs := fun _ hx => mem_dropOther hx
    have e1 : stepFullstack (lowerL title) (dropOther (enforceCategoryRules title cs)) =
        dropOther (enforceCategoryRules title cs) := by
      by_cases hk : anyKw fullstack_kw (lowerL title) = true
      · exact removalStep_eq_self (Or.inl hk)
      · exact removalStep_eq_self (Or.inr (fun hm =>
          fullstack_notMem_enforce (Bool.eq_false_iff.mpr hk) (hsubv _ hm)))
    have e2 : stepTesting (lowerL title) (dropOther (enforceCategoryRules title cs)) =
        dropOther (enforceCategoryRules title cs) := by
      by_cases hk : anyKw testing_kw (lowerL title) = true
      · exact removalStep_eq_self (Or.inl hk)
      · exact removalStep_eq_self (Or.inr (fun hm =>
          testing_notMem_enforce (Bool.eq_false_iff.mpr hk) (hsubv _ hm)))
    have e3 : stepAi (lowerL title) (dropOther (enforceCategoryRules title cs)) =
        dropOther (enforceCategoryRules title cs) := by
      by_cases hk : anyKw ai_kw (lowerL title) = true
      · exact removalStep_eq_self (Or.inl hk)
      · exact removalStep_eq_self (Or.inr (fun hm =>
          ai_notMem_enforce (Bool.eq_false_iff.mpr hk) (hsubv _ hm)))
    have e4 : stepMobile (lowerL title) (dropOther (enforceCategoryRules title cs)) =
        dropOther (enforceCategoryRules title cs) := by
      by_cases hmob : anyKw mobile_kw (lowerL title) = true
      · apply forceStep_fix
        · exact mem_dropOther_of_ne (by decide) (mobile_mem_enforce hmob hnd')
        · by_cases hbk : anyKw backend_kw (lowerL title) = true
          · exact Or.inl hbk
          · exact Or.inr (fun hm => backend_notMem_enforce_mobile hmob
              (Bool.eq_false_iff.mpr hbk) (hsubv _ hm))
        · by_cases hfr : anyKw frontend_kw (lowerL title) = true
          · exact Or.inl hfr
          · exact Or.inr (fun hm => frontend_notMem_enforce_mobile hmob
              (Bool.eq_false_iff.mpr hfr) (hsubv _ hm))
      · exact forceStep_eq_self_of_neg (Bool.eq_false_iff.mpr hmob)
    have e5 : stepGame (lowerL title) (dropOther (enforceCategoryRules title cs)) =
        dropOther (enforceCategoryRules title cs) := by
      by_cases hgame : anyKw game_kw (lowerL title) = true
      · apply forceStep_fix
        · exact mem_dropOther_of_ne (by decide) (game_mem_enforce hgame hnd')
        · by_cases hbk : anyKw backend_kw_game (lowerL title) = true
          · exact Or.inl hbk
          · exact Or.inr (fun hm => backend_notMem_enforce_game hgame
              (Bool.eq_false_iff.mpr hbk) (hsubv _ hm))
        · by_cases hfr : anyKw frontend_kw_game (lowerL title) = true
          · exact Or.inl hfr
          · exact Or.inr (fun hm => frontend_notMem_enforce_game hgame
              (Bool.eq_false_iff.mpr hfr) (hsubv _ hm))
      · exact forceStep_eq_self_of_neg (Bool.eq_false_iff.mpr hgame)
    have e6 : stepBlockchain (lowerL title) (dropOther (enforceCategoryRules title cs)) =
        dropOther (enforceCategoryRules title cs) := by
      by_cases hk : anyKw blockchain_kw (lowerL title) = true
      · exact removalStep_eq_self (Or.inl hk)
      · exact removalStep_eq_self (Or.inr (fun hm =>
          blockchain_notMem_enforce (Bool.eq_false_iff.mpr hk) (hsubv _ hm)))
    generalize hV : dropOther (enforceCategoryRules title cs) = V at e1 e2 e3 e4 e5 e6 h ⊢
    have henf : enforceCategoryRules title V = V := by
      unfold enforceCategoryRules
      rw [e1, e2, e3, e4, e5, e6, stepNonDev_neg hnd', stepEmptyFallback_of_ne h]
    rw [henf, ← hV]
    exact dropOther_idem

/-- Witness for C4 at the concrete title `"ios developer"` and list
`["backend"]` (the layer corrects it to `["mobile"]`, a fixed point). -/
theorem c4_witness :
    AIClassifier.correctionLayer (lc "ios developer") [lc "backend"] ≠ [] ∧
    AIClassifier.correctionLayer (lc "ios developer")
        (AIClassifier.correctionLayer (lc "ios developer") [lc "backend"]) =
      AIClassifier.correctionLayer (lc "ios developer") [lc "backend"] :=
  ⟨by decide, c4_theorem (lc "ios developer") [lc "backend"] (by decide)⟩

/-- C3: `classify_category` CAN return the empty list, contradicting the
claim: when the model answers `"other,other"`, both copies survive key
validation, the correction rules leave them, and the final step
`if len(categories) > 1 and "other" in categories` removes every element. -/
theorem c3_counterexample :
    AIClassifier.classifyCategory (lc "x") (Except.ok (lc "other,other")) = [] := by
  decide

/-- C3 (amended): on a transport / parse error `classify_category` returns
exactly `["other"]`; every returned key belongs to the 14-key taxonomy
(model keys outside it are discarded, an empty surviving set becomes
`["other"]` before correction); and the result is non-empty except in the
case that the corrected set consists of two or more copies of `"other"`,
which the final `other`-dropping step empties. -/
theorem c3_theorem (title : Str) (llm : Except Unit Str) :
    (llm = .error () → AIClassifier.classifyCategory title llm = [lc "other"]) ∧
    (∀ c ∈ AIClassifier.classifyCategory title llm, c ∈ AIClassifier.CATEGORY_KEYS) ∧
    (AIClassifier.classifyCategory title llm = [] →
      ∃ ans, llm = .ok ans ∧
        1 < (AIClassifier.enforceCategoryRules title (AIClassifier.validatedKeys ans)).length ∧
        ∀ x ∈ AIClassifier.enforceCategoryRules title (AIClassifier.validatedKeys ans),
          x = lc "other") := by
  open AIClassifier in
  refine ⟨?_, ?_, ?_⟩
  · rintro rfl
    rfl
  · intro c hc
    cases llm with
    | error e =>
      have : c = lc "other" := List.mem_singleton.1 hc
      rw [this]
      decide
    | ok ans =>
      have hc2 : c ∈ enforceCategoryRules title (validatedKeys ans) := mem_dropOther hc
      rcases mem_enforce hc2 with h | h | h | h
      · rcases mem_validatedKeys h with h | h
        · exact h
        · rw [h]; decide
      · rw [h]; decide
      · rw [h]; decide
      · rw [h]; decide
  · intro hnil
    cases llm with
    | error e => simp [classifyCategory] at hnil
    | ok ans =>
      refine ⟨ans, rfl, ?_⟩
      have hnil2 : dropOther (enforceCategoryRules title (validatedKeys ans)) = [] := hnil
      rcases dropOther_eq_nil_cases hnil2 with hc | ⟨hlen, hall⟩
      · exact absurd hc enforce_ne_nil
      · exact ⟨hlen, hall⟩

/-- Witness for C3: concrete instances of the error fallback and of taxonomy
membership of a successful classification. -/
theorem c3_witness :
    AIClassifier.classifyCategory (lc "backend dev") (Except.error ()) = [lc "other"] :=
  (c3_theorem (lc "backend dev") (Except.error ())).1 rfl

/-- C5 (confirmed): the Stage-2 semantic relevance filter fails open — any
transport / parse error from the model call makes `is_job_posting` return
`True`; on a successful call the result is `True` exactly when the positive
token `"JOB"` occurs in the upper-cased response. -/
theorem c5_theorem (llm : Except Unit Str) :
    (llm = .error () → AIClassifier.isJobPosting llm = true) ∧
    (∀ ans, llm = .ok ans →
      (AIClassifier.isJobPosting llm = true ↔ ∃ l r, upperL ans = l ++ lc "JOB" ++ r)) := by
  constructor
  · rintro rfl
    rfl
  · rintro ans rfl
    show hasSub (lc "JOB") (upperL ans) = true ↔ _
    exact hasSub_iff

/-- Witness for C5: the error fallback admits, and the answer `"job_ad"`
(containing the positive token after upper-casing) admits. -/
theorem c5_witness :
    AIClassifier.isJobPosting (Except.error ()) = true ∧
    AIClassifier.isJobPosting (Except.ok (lc "job_ad")) = true :=
  ⟨(c5_theorem (Except.error ())).1 rfl,
   ((c5_theorem (Except.ok (lc "job_ad"))).2 (lc "job_ad") rfl).mpr
     ⟨[], lc "_AD", by decide⟩⟩

namespace EleduckScraper

/-! ### `EleduckScraper` (src/scraper/scrapers/eleduck_scraper.py)

The Stage-1 rule filter `_is_dev_job` (lines 191-222), the per-post admission
gate of `scrape` (lines 79-87, Stage 1 then Stage 2), and the fallback
category extractor `_extract_category` (lines 165-182). -/

/-- `any(k in t for k in kws)`. -/
def anyIn (kws : List Str) (t : Str) : Bool := kws.any (fun k => hasSub k t)

def dev_keywords : List Str :=
  [lc "developer", lc "engineer", lc "programmer", lc "architect", lc "前端",
   lc "后端", lc "开发", lc "工程师", lc "全栈", lc "ios", lc "android",
   lc "flutter", lc "react", lc "vue", lc "python", lc "java", lc "golang",
   lc "rust", lc "招聘", lc "诚招", lc "寻找伙伴", lc "招人", lc "solidity",
   lc "web3", lc "区块链", lc "blockchain", lc "devops", lc "sre", lc "运维",
   lc "测试", lc "qa", lc "产品", lc "designer", lc "设计", lc "ui", lc "ux"]

def exclude_keywords : List Str :=
  [lc "求职", lc "寻找机会", lc "找工作", lc "老兵", lc "求带", lc "全职远程求",
   lc "本人", lc "自我介绍", lc "技术栈:", lc "介绍一下自己", lc "寻求", lc "探索",
   lc "我是", lc "目前是", lc "状态是", lc "目前在", lc "自由职业", lc "大厂",
   lc "丰富经验", lc "项目经验", lc "多年经验", lc "寻找长期方向", lc "求推荐",
   lc "求指点", lc "求关注", lc "背景", lc "个人简介", lc "个人简历", lc "我的经历",
   lc "分享", lc "教程", lc "感悟", lc "转行", lc "求助", lc "咨询", lc "防骗",
   lc "曝光", lc "问卷", lc "调查", lc "我开发的", lc "第一款", lc "初衷",
   lc "故事", lc "心得", lc "开源了", lc "作品", lc "项目展示", lc "如何",
   lc "突围", lc "探讨", lc "思考", lc "关于", lc "建议", lc "如虎添翼",
   lc "谈谈", lc "看法", lc "评价", lc "回馈", lc "抽奖", lc "讨论",
   lc "看法", lc "评价"]

/-- Character class `[年y(years?)]` of the years-of-experience regex, under
`re.IGNORECASE`. -/
def expC1 (c : Char) : Bool :=
  c = '年' || c.toLower = 'y' || c = '(' || c.toLower = 'e' || c.toLower = 'a' ||
    c.toLower = 'r' || c.toLower = 's' || c = '?' || c = ')'

/-- Character class `[经验exp]` under `re.IGNORECASE`. -/
def expC2 (c : Char) : Bool :=
  c = '经' || c = '验' || c.toLower = 'e' || c.toLower = 'x' || c.toLower = 'p'

/-- `.*?[经验exp]`: a class-2 character is reachable with no newline before it
(`.` does not match a newline). -/
def c2BeforeNewline : Str → Bool
  | [] => false
  | c :: rest =>
    if expC2 c then true
    else if c = '\n' then false
    else c2BeforeNewline rest

/-- After a digit: `\s*` then a class-1 character, then `.*?[经验exp]`.  A
backtracking match exists exactly when the first non-whitespace character
after the digit run is in class 1 (no class-1 character is whitespace). -/
def yearExpFrom (s : Str) : Bool :=
  match s.dropWhile DatabaseClient.isPyWs with
  | [] => false
  | c :: rest => expC1 c && c2BeforeNewline rest

/-- `re.search(r'\d+\s*[年y(years?)].*?[经验exp]', title, re.IGNORECASE)`:
a match exists iff some digit position (the last digit consumed by `\d+`)
continues as above. -/
def yearExpMatch : Str → Bool
  | [] => false
  | c :: rest => (c.isDigit && yearExpFrom rest) || yearExpMatch rest

/-- `text = (title + " " + description).lower()`. -/
def textOf (title summary : Str) : Str := lowerL (title ++ ' ' :: summary)

/-- `has_dev = any(kw in text for kw in dev_keywords)`. -/
def hasDevKw (title summary : Str) : Bool := anyIn dev_keywords (textOf title summary)

/-- `is_negative` after the first-person rule: an exclusion keyword occurs in
the lowered title, or `我` occurs in the title without `招聘`. -/
def isNegTitle (title : Str) : Bool :=
  anyIn exclude_keywords (lowerL title) ||
    (hasSub (lc "我") title && !hasSub (lc "招聘") title)

/-- `EleduckScraper._is_dev_job`. -/
def isDevJob (title summary : Str) : Bool :=
  if yearExpMatch title then false
  else hasDevKw title summary && !isNegTitle title

/-- The per-post admission gate of `scrape` (lines 79-87): Stage 1 must pass
before Stage 2 runs; the Stage-2 model call is an oracle argument, so a
Stage-1 rejection is independent of it. -/
def eleduckStage (stage2 : Str → Str → Bool) (title summary : Str) : Bool :=
  if isDevJob title summary then stage2 title summary else false

def frontend_cat_kw : List Str :=
  [lc "frontend", lc "front-end", lc "前端", lc "react", lc "vue", lc "angular", lc "flutter"]

def backend_cat_kw : List Str :=
  [lc "backend", lc "back-end", lc "后端", lc "python", lc "java", lc "go",
   lc "golang", lc "node", lc "ruby", lc "php"]

def fullstack_cat_kw : List Str := [lc "fullstack", lc "full-stack", lc "全栈"]

def mobile_cat_kw : List Str := [lc "mobile", lc "ios", lc "android", lc "移动端"]

def devops_cat_kw : List Str := [lc "devops", lc "sre", lc "运维", lc "infrastructure"]

def ai_cat_kw : List Str := [lc "data", lc "ml", lc "ai", lc "算法", lc "big data", lc "数据"]

/-- `EleduckScraper._extract_category` (lines 165-182): first-match keyword
table over `(title + " " + description).lower()`, falling back to the
sentinel string `"unknown"`. -/
def extractCategory (title summary : Str) : Str :=
  if anyIn frontend_cat_kw (textOf title summary) then lc "frontend"
  else if anyIn backend_cat_kw (textOf title summary) then lc "backend"
  else if anyIn fullstack_cat_kw (textOf title summary) then lc "fullstack"
  else if anyIn mobile_cat_kw (textOf title summary) then lc "mobile"
  else if anyIn devops_cat_kw (textOf title summary) then lc "devops"
  else if anyIn ai_cat_kw (textOf title summary) then lc "ai"
  else lc "unknown"

theorem isDevJob_false_of_neg {title summary : Str} (h : isNegTitle title = true) :
    isDevJob title summary = false := by
  unfold isDevJob
  split
  · rfl
  · rw [h]
    simp

theorem eleduckStage_false {stage2 : Str → Str → Bool} {title summary : Str}
    (h : isDevJob title summary = false) : eleduckStage stage2 title summary = false := by
  unfold eleduckStage
  rw [h]
  simp

end EleduckScraper

/-- C6 (confirmed): the Stage-1 rule filter of the eleduck scraper rejects —
for every Stage-2 oracle, i.e. with no influence of the model call — every
posting whose title contains an exclusion keyword and every posting whose
title contains the first-person marker `我` without the hiring marker `招聘`;
and a posting passes Stage 1 only if some job-indicator keyword matches the
combined text and no title exclusion applies. -/
theorem c6_theorem (title summary : Str) (oracle : Str → Str → Bool) :
    (∀ kw ∈ EleduckScraper.exclude_keywords, hasSub kw (lowerL title) = true →
      EleduckScraper.eleduckStage oracle title summary = false) ∧
    (hasSub (lc "我") title = true → hasSub (lc "招聘") title = false →
      EleduckScraper.eleduckStage oracle title summary = false) ∧
    (EleduckScraper.isDevJob title summary = true →
      EleduckScraper.hasDevKw title summary = true ∧
      EleduckScraper.isNegTitle title = false ∧
      ∀ kw ∈ EleduckScraper.exclude_keywords, hasSub kw (lowerL title) = false) := by
  open EleduckScraper in
  refine ⟨?_, ?_, ?_⟩
  · intro kw hkw hsub
    apply eleduckStage_false
    apply isDevJob_false_of_neg
    unfold isNegTitle anyIn
    rw [List.any_eq_true.mpr ⟨kw, hkw, hsub⟩]
    rfl
  · intro h1 h2
    apply eleduckStage_false
    apply isDevJob_false_of_neg
    unfold isNegTitle
    rw [h1, h2]
    simp
  · intro h
    unfold isDevJob at h
    split at h
    · exact absurd h (by simp)
    · rcases Bool.and_eq_true _ _ |>.mp h with ⟨hdev, hneg⟩
      have hneg2 : isNegTitle title = false := by
        cases hn : isNegTitle title
        · rfl
        · rw [hn] at hneg
          exact absurd hneg (by simp)
      refine ⟨hdev, hneg2, ?_⟩
      intro kw hkw
      unfold isNegTitle at hneg2
      rcases Bool.or_eq_false_iff.mp hneg2 with ⟨hex, _⟩
      unfold anyIn at hex
      have := List.any_eq_false.mp hex kw hkw
      simpa using this

/-- Witness for C6 at the spec's example title `"5年Java求职远程"`, which
contains the exclusion marker `求职` and is rejected for every oracle. -/
theorem c6_witness :
    lc "求职" ∈ EleduckScraper.exclude_keywords ∧
    hasSub (lc "求职") (lowerL (lc "5年Java求职远程")) = true ∧
    EleduckScraper.eleduckStage (fun _ _ => true) (lc "5年Java求职远程") (lc "远程工作") = false :=
  ⟨by decide, by decide,
   (c6_theorem (lc "5年Java求职远程") (lc "远程工作") (fun _ _ => true)).1
     (lc "求职") (by decide) (by decide)⟩

namespace DatabaseClient

/-! ### SHA-256 and `DatabaseClient._generate_hash` (database.py lines 83-89)

`hashlib.sha256(content.encode()).hexdigest()` over the UTF-8 bytes of
`normalize(title) + normalize(description)[:200]`.  The hash is implemented
below from FIPS 180-4 over `Nat` with explicit reduction modulo `2^32`. -/

/-- UTF-8 encoding of one character (`str.encode()`). -/
def utf8Bytes (c : Char) : List Nat :=
  if c.toNat < 128 then [c.toNat]
  else if c.toNat < 2048 then
    [192 + c.toNat / 64, 128 + c.toNat % 64]
  else if c.toNat < 65536 then
    [224 + c.toNat / 4096, 128 + (c.toNat / 64) % 64, 128 + c.toNat % 64]
  else
    [240 + c.toNat / 262144, 128 + (c.toNat / 4096) % 64,
     128 + (c.toNat / 64) % 64, 128 + c.toNat % 64]

def utf8Encode (s : Str) : List Nat := (s.map utf8Bytes).flatten

def w32 (n : Nat) : Nat := n % 4294967296

def rotr (n x : Nat) : Nat := w32 ((x >>> n) ||| (x <<< (32 - n)))

def bnot32 (x : Nat) : Nat := x ^^^ 4294967295

def bsig0 (x : Nat) : Nat := (rotr 2 x) ^^^ (rotr 13 x) ^^^ (rotr 22 x)

def bsig1 (x : Nat) : Nat := (rotr 6 x) ^^^ (rotr 11 x) ^^^ (rotr 25 x)

def ssig0 (x : Nat) : Nat := (rotr 7 x) ^^^ (rotr 18 x) ^^^ (x >>> 3)

def ssig1 (x : Nat) : Nat := (rotr 17 x) ^^^ (rotr 19 x) ^^^ (x >>> 10)

def chF (x y z : Nat) : Nat := (x &&& y) ^^^ (bnot32 x &&& z)

def majF (x y z : Nat) : Nat := (x &&& y) ^^^ (x &&& z) ^^^ (y &&& z)

def kConst : List Nat :=
  [1116352408, 1899447441, 3049323471, 3921009573, 961987163,
   1508970993, 2453635748, 2870763221, 3624381080, 310598401,
   607225278, 1426881987, 1925078388, 2162078206, 2614888103,
   3248222580, 3835390401, 4022224774, 264347078, 604807628,
   770255983, 1249150122, 1555081692, 1996064986, 2554220882,
   2821834349, 2952996808, 3210313671, 3336571891, 3584528711,
   113926993, 338241895, 666307205, 773529912, 1294757372,
   1396182291, 1695183700, 1986661051, 2177026350, 2456956037,
   2730485921, 2820302411, 3259730800, 3345764771, 3516065817,
   3600352804, 4094571909, 275423344, 430227734, 506948616,
   659060556, 883997877, 958139571, 1322822218, 1537002063,
   1747873779, 1955562222, 2024104815, 2227730452, 2361852424,
   2428436474, 2756734187, 3204031479, 3329325298]

structure Hash8 where
  a : Nat
  b : Nat
  c : Nat
  d : Nat
  e : Nat
  f : Nat
  g : Nat
  h : Nat

def initHash : Hash8 :=
  ⟨1779033703, 3144134277, 1013904242, 2773480762,
   1359893119, 2600822924, 528734635, 1541459225⟩

def wordsOfBlock (b : List Nat) : List Nat :=
  (List.range 16).map (fun i =>
    b.getD (4 * i) 0 * 16777216 + b.getD (4 * i + 1) 0 * 65536 +
      b.getD (4 * i + 2) 0 * 256 + b.getD (4 * i + 3) 0)

def extendSchedule : Nat → List Nat → List Nat
  | 0, ws => ws
  | n + 1, ws =>
    extendSchedule n (ws ++
      [w32 (ssig1 (ws.getD (ws.length - 2) 0) + ws.getD (ws.length - 7) 0 +
        ssig0 (ws.getD (ws.length - 15) 0) + ws.getD (ws.length - 16) 0)])

def compressStep (st : Hash8) (kw : Nat × Nat) : Hash8 :=
  ⟨w32 (w32 (st.h + bsig1 st.e + chF st.e st.f st.g + kw.1 + kw.2) +
      w32 (bsig0 st.a + majF st.a st.b st.c)),
   st.a, st.b, st.c,
   w32 (st.d + w32 (st.h + bsig1 st.e + chF st.e st.f st.g + kw.1 + kw.2)),
   st.e, st.f, st.g⟩

def compressBlock (st : Hash8) (block : List Nat) : Hash8 :=
  match (kConst.zip (extendSchedule 48 (wordsOfBlock block))).foldl compressStep st with
  | st2 =>
    ⟨w32 (st.a + st2.a), w32 (st.b + st2.b), w32 (st.c + st2.c), w32 (st.d + st2.d),
     w32 (st.e + st2.e), w32 (st.f + st2.f), w32 (st.g + st2.g), w32 (st.h + st2.h)⟩

def lengthBytes (len : Nat) : List Nat :=
  (List.range 8).map (fun i => ((8 * len) >>> (8 * (7 - i))) % 256)

def padMessage (msg : List Nat) : List Nat :=
  msg ++ 128 :: List.replicate ((119 - msg.length % 64) % 64) 0 ++ lengthBytes msg.length

def toBlocks : Nat → List Nat → List (List Nat)
  | 0, _ => []
  | _ + 1, [] => []
  | fuel + 1, l => l.take 64 :: toBlocks fuel (l.drop 64)

def sha256Words (msg : List Nat) : List Nat :=
  match (toBlocks (padMessage msg).length (padMessage msg)).foldl compressBlock initHash with
  | st => [st.a, st.b, st.c, st.d, st.e, st.f, st.g, st.h]

def hexDigit (n : Nat) : Char :=
  if n < 10 then Char.ofNat (48 + n) else Char.ofNat (87 + n)

def word2hex (w : Nat) : Str :=
  (List.range 8).map (fun i => hexDigit ((w >>> (4 * (7 - i))) % 16))

def sha256Hex (msg : List Nat) : Str := ((sha256Words msg).map word2hex).flatten

/-- The record stored by the `INSERT INTO jobs` statement, restricted to the
columns the dedup logic and the claims read. -/
structure StoredJob where
  id : Nat
  title : Str
  category : Str
  source_site : Str
  content_hash : Str
  date_scraped : Int
  is_active : Bool
  deriving DecidableEq

/-- The `job_data` dict handed to `insert_job`, restricted likewise. -/
structure JobData where
  title : Str
  description : Str
  category : Str
  source_site : Str
  deriving DecidableEq

/-- `DatabaseClient._generate_hash`. -/
def generateHash (job : JobData) : Str :=
  sha256Hex (utf8Encode (normalizeText job.title ++ (normalizeText job.description).take 200))

/-- `DatabaseClient._similarity`: character-set Jaccard index, 0 on empty
input.  Python compares the float `intersection / union` with the literal
`0.8`; for `union ≤ 2^21` (bounded by the number of distinct characters) the
float comparison agrees with the exact rational one, so the model uses `ℚ`. -/
def similarity (s1 s2 : Str) : ℚ :=
  if s1.isEmpty || s2.isEmpty then 0
  else mkRat ((s1.toFinset ∩ s2.toFinset).card : Int) ((s1.toFinset ∪ s2.toFinset).card)

/-- `timedelta(days=30)` in seconds; timestamps are modeled as seconds. -/
def THIRTY_DAYS : Int := 2592000

/-- `DatabaseClient._is_similar_exists`: no fuzzy check for normalized titles
shorter than 10 characters; otherwise scan the stored jobs with the same
`source_site`, `date_scraped` within the last 30 days and `is_active = TRUE`
for one whose normalized title has similarity above 0.8. -/
def isSimilarExists (store : List StoredJob) (now : Int) (job : JobData) : Bool :=
  if (normalizeText job.title).length < 10 then false
  else
    (store.filter (fun r => r.source_site == job.source_site &&
        decide (r.date_scraped > now - THIRTY_DAYS) && r.is_active)).any
      (fun r =>
        decide (similarity (normalizeText job.title) (normalizeText r.title) > mkRat 4 5))

/-- `DatabaseClient.insert_job`: reject (returning `None`, store unchanged)
when a stored job has the identical content hash or when the fuzzy check
fires; otherwise insert the truncated record and return its id. -/
def insertJob (store : List StoredJob) (now : Int) (nextId : Nat) (job : JobData) :
    Option Nat × List StoredJob :=
  if store.any (fun r => r.content_hash == generateHash job) then (none, store)
  else if isSimilarExists store now job then (none, store)
  else
    (some nextId,
     store ++ [{ id := nextId, title := job.title.take 255,
                 category := job.category.take 50,
                 source_site := job.source_site.take 50,
                 content_hash := generateHash job,
                 date_scraped := now, is_active := true }])

end DatabaseClient

/-- Inactive stored row exhibiting the gap in C7: same source, scraped within
the window, similarity 1, but `is_active = FALSE`. -/
def c7ex_store : List DatabaseClient.StoredJob :=
  [⟨1, lc "python backend developer", lc "backend", lc "v2ex", lc "deadbeef", 5, false⟩]

def c7ex_job : DatabaseClient.JobData :=
  ⟨lc "python backend developer", lc "", lc "backend", lc "v2ex"⟩

/-- C7: the fuzzy check is NOT against all jobs of the same source within 30
days — the SQL query (database.py line 101) also requires `is_active = TRUE`.
A stored inactive job of the same source, scraped within the window and with
character-set similarity 1 > 0.8, does not make the candidate a duplicate,
although the claim says it must. -/
theorem c7_counterexample :
    DatabaseClient.isSimilarExists c7ex_store 10 c7ex_job = false ∧
    10 ≤ (DatabaseClient.normalizeText c7ex_job.title).length ∧
    ∃ r ∈ c7ex_store, r.source_site = c7ex_job.source_site ∧
      10 - DatabaseClient.THIRTY_DAYS < r.date_scraped ∧
      mkRat 4 5 < DatabaseClient.similarity (DatabaseClient.normalizeText c7ex_job.title)
        (DatabaseClient.normalizeText r.title) := by
  refine ⟨by decide, by decide, ⟨1, lc "python backend developer", lc "backend",
    lc "v2ex", lc "deadbeef", 5, false⟩, by decide, by decide, by decide, by decide⟩

/-- C7 (amended): the fuzzy duplicate check runs only when the normalized
title has length at least 10; it compares the candidate exactly against the
stored jobs of the same `source_site` scraped within the last 30 days AND
marked active, declaring a duplicate precisely when one of them has
character-set Jaccard similarity strictly above 0.8; and a candidate that is
a duplicate (by exact hash or fuzzy match) makes `insert_job` return `None`
with the store unchanged. -/
theorem c7_theorem (store : List DatabaseClient.StoredJob) (now : Int)
    (nextId : Nat) (job : DatabaseClient.JobData) :
    ((DatabaseClient.normalizeText job.title).length < 10 →
      DatabaseClient.isSimilarExists store now job = false) ∧
    (DatabaseClient.isSimilarExists store now job = true ↔
      (10 ≤ (DatabaseClient.normalizeText job.title).length ∧
       ∃ r ∈ store, r.source_site = job.source_site ∧
         now - DatabaseClient.THIRTY_DAYS < r.date_scraped ∧
         r.is_active = true ∧
         mkRat 4 5 < DatabaseClient.similarity (DatabaseClient.normalizeText job.title)
           (DatabaseClient.normalizeText r.title))) ∧
    ((store.any (fun r => r.content_hash == DatabaseClient.generateHash job) = true ∨
      DatabaseClient.isSimilarExists store now job = true) →
      DatabaseClient.insertJob store now nextId job = (none, store)) := by
  open DatabaseClient in
  refine ⟨?_, ?_, ?_⟩
  · intro h
    unfold isSimilarExists
    rw [if_pos h]
  · unfold isSimilarExists
    by_cases hlen : (normalizeText job.title).length < 10
    · rw [if_pos hlen]
      constructor
      · intro h
        exact absurd h (by simp)
      · rintro ⟨h10, -⟩
        omega
    · rw [if_neg hlen]
      rw [List.any_eq_true]
      constructor
      · rintro ⟨r, hr, hp⟩
        rcases List.mem_filter.mp hr with ⟨hrs, hcond⟩
        rcases Bool.and_eq_true _ _ |>.mp hcond with ⟨hcond1, hact⟩
        rcases Bool.and_eq_true _ _ |>.mp hcond1 with ⟨hsite, hdate⟩
        refine ⟨by omega, r, hrs, ?_, ?_, hact, ?_⟩
        · exact eq_of_beq hsite
        · have := of_decide_eq_true hdate
          omega
        · exact of_decide_eq_true hp
      · rintro ⟨h10, r, hr, hsite, hdate, hact, hsim⟩
        refine ⟨r, List.mem_filter.mpr ⟨hr, ?_⟩, decide_eq_true hsim⟩
        rw [hsite, hact]
        simp
        omega
  · intro h
    unfold insertJob
    rcases h with h | h
    · rw [if_pos h]
    · by_cases hh : store.any (fun r => r.content_hash == generateHash job) = true
      · rw [if_pos hh]
      · rw [if_neg hh, if_pos h]

def c7w_job : DatabaseClient.JobData := ⟨lc "x", lc "", lc "backend", lc "v2ex"⟩

def c7w_store : List DatabaseClient.StoredJob :=
  [⟨1, lc "x", lc "backend", lc "v2ex", DatabaseClient.generateHash c7w_job, 5, true⟩]

/-- Witness for C7: a short title is never a fuzzy duplicate, and an exact
hash match makes `insert_job` return `None` with the store unchanged. -/
theorem c7_witness :
    DatabaseClient.isSimilarExists c7w_store 10 c7w_job = false ∧
    DatabaseClient.insertJob c7w_store 10 2 c7w_job = (none, c7w_store) :=
  ⟨(c7_theorem c7w_store 10 2 c7w_job).1 (by decide),
   (c7_theorem c7w_store 10 2 c7w_job).2.2
     (Or.inl (by simp [c7w_store]))⟩

def c8ex_job1 : DatabaseClient.JobData := ⟨lc "ab", lc "", lc "", lc ""⟩

def c8ex_job2 : DatabaseClient.JobData := ⟨lc "a", lc "b", lc "", lc ""⟩

/-- C8: the "changes if" direction of the claim fails — the hash input is the
plain concatenation of the normalized title and the truncated normalized
description, so `(title="ab", desc="")` and `(title="a", desc="b")` have
different normalized titles yet identical `content_hash`. -/
theorem c8_counterexample :
    DatabaseClient.generateHash c8ex_job1 = DatabaseClient.generateHash c8ex_job2 ∧
    DatabaseClient.normalizeText c8ex_job1.title ≠ DatabaseClient.normalizeText c8ex_job2.title := by
  constructor
  · unfold DatabaseClient.generateHash
    have harg : DatabaseClient.normalizeText c8ex_job1.title ++
        (DatabaseClient.normalizeText c8ex_job1.description).take 200 =
        DatabaseClient.normalizeText c8ex_job2.title ++
        (DatabaseClient.normalizeText c8ex_job2.description).take 200 := by decide
    exact congrArg (fun l => DatabaseClient.sha256Hex (DatabaseClient.utf8Encode l)) harg
  · decide

/-- C8 (amended): `content_hash` is the SHA-256 hex digest of the normalized
title concatenated with the first 200 characters of the normalized
description; it is a pure deterministic function of this data — in
particular it is unchanged whenever the normalized title and truncated
normalized description are unchanged (so it changes only if they change),
though distinct pairs whose concatenations coincide share a hash. -/
theorem c8_theorem (j1 j2 : DatabaseClient.JobData) :
    DatabaseClient.generateHash j1 = DatabaseClient.sha256Hex (DatabaseClient.utf8Encode
      (DatabaseClient.normalizeText j1.title ++
        (DatabaseClient.normalizeText j1.description).take 200)) ∧
    (DatabaseClient.normalizeText j1.title = DatabaseClient.normalizeText j2.title →
      (DatabaseClient.normalizeText j1.description).take 200 =
        (DatabaseClient.normalizeText j2.description).take 200 →
      DatabaseClient.generateHash j1 = DatabaseClient.generateHash j2) := by
  constructor
  · rfl
  · intro h1 h2
    unfold DatabaseClient.generateHash
    rw [h1, h2]

def c8w_job1 : DatabaseClient.JobData := ⟨lc "Dev", lc "x", lc "", lc ""⟩

def c8w_job2 : DatabaseClient.JobData := ⟨lc "dev", lc "x ", lc "", lc ""⟩

/-- Witness for C8: two raw inputs with equal normalized title and truncated
description get the same hash. -/
theorem c8_witness :
    DatabaseClient.generateHash c8w_job1 = DatabaseClient.generateHash c8w_job2 :=
  (c8_theorem c8w_job1 c8w_job2).2 (by decide) (by decide)

namespace Orchestrator

/-! ### `main.py` — `scrape_all` (lines 24-45) and `run_with_database`
(lines 48-71)

Each scraper's `scrape()` either returns a job list or raises; each
`db.insert_job(job)` either returns an id / `None` or raises.  Both outcomes
are modeled as `Except Unit` values supplied per unit, and the per-unit
`try/except` blocks make the orchestrator a total function of them. -/

/-- `scrape_all`: extend `all_jobs` with each source's result, skipping (only
logging) a source whose scrape raises. -/
def scrapeAll (results : List (Except Unit (List DatabaseClient.JobData))) :
    List DatabaseClient.JobData :=
  results.foldl
    (fun acc r =>
      match r with
      | .ok jobs => acc ++ jobs
      | .error _ => acc) []

/-- The jobs a source contributes: its list on success, nothing on failure. -/
def okJobs (r : Except Unit (List DatabaseClient.JobData)) : List DatabaseClient.JobData :=
  match r with
  | .ok jobs => jobs
  | .error _ => []

/-- `run_with_database`: count an insertion returning an id, skip a `None`
(duplicate) and skip (only logging) an insertion that raises. -/
def runWithDatabase (insert : DatabaseClient.JobData → Except Unit (Option Nat))
    (jobs : List DatabaseClient.JobData) : Nat :=
  jobs.foldl
    (fun n job =>
      match insert job with
      | .ok (some _) => n + 1
      | .ok none => n
      | .error _ => n) 0

/-- Whether one insertion call succeeded with a new id. -/
def insertedOk (r : Except Unit (Option Nat)) : Bool :=
  match r with
  | .ok (some _) => true
  | .ok none => false
  | .error _ => false

theorem scrapeAll_acc (results : List (Except Unit (List DatabaseClient.JobData)))
    (acc : List DatabaseClient.JobData) :
    results.foldl
      (fun acc r =>
        match r with
        | .ok jobs => acc ++ jobs
        | .error _ => acc) acc = acc ++ (results.map okJobs).flatten := by
  induction results generalizing acc with
  | nil => simp
  | cons r rest ih =>
    cases r with
    | ok jobs => simp [List.foldl_cons, ih, okJobs]
    | error e => simp [List.foldl_cons, ih, okJobs]

theorem runWithDatabase_acc (insert : DatabaseClient.JobData → Except Unit (Option Nat))
    (jobs : List DatabaseClient.JobData) (n : Nat) :
    jobs.foldl
      (fun n job =>
        match insert job with
        | .ok (some _) => n + 1
        | .ok none => n
        | .error _ => n) n = n + (jobs.filter (fun job => insertedOk (insert job))).length := by
  induction jobs generalizing n with
  | nil => simp
  | cons job rest ih =>
    rw [List.foldl_cons, List.filter_cons]
    cases hr : insert job with
    | ok o =>
      cases o with
      | some i => simp [hr, ih, insertedOk, Nat.add_comm, Nat.add_assoc, Nat.add_left_comm]
      | none => simp [hr, ih, insertedOk]
    | error e => simp [hr, ih, insertedOk]

end Orchestrator

/-- C9 (confirmed): failure isolation in the orchestrator.  Both phases are
total functions of the per-unit outcomes (a raising unit is caught where it
occurs and never propagates), and the result aggregates exactly the
non-failing units: `scrape_all` returns the concatenation of the successful
sources' job lists (a failing source contributes nothing), and
`run_with_database` processes every job and counts exactly those whose
insertion succeeded with a new id. -/
theorem c9_theorem (results : List (Except Unit (List DatabaseClient.JobData)))
    (insert : DatabaseClient.JobData → Except Unit (Option Nat))
    (jobs : List DatabaseClient.JobData) :
    Orchestrator.scrapeAll results = (results.map Orchestrator.okJobs).flatten ∧
    Orchestrator.runWithDatabase insert jobs =
      (jobs.filter (fun job => Orchestrator.insertedOk (insert job))).length := by
  constructor
  · have := Orchestrator.scrapeAll_acc results []
    simpa [Orchestrator.scrapeAll] using this
  · have := Orchestrator.runWithDatabase_acc insert jobs 0
    simpa [Orchestrator.runWithDatabase] using this

namespace ReMatch

/-! ### Pattern scaffolding for the region extractors

The extractors use `re.search` with small fixed patterns: literal words,
`\s*` / `\s+` / `[\s-]*` gaps, word boundaries `\b`, and one captured
`[+-]\d{1,2}` offset.  Each pattern is compiled by hand into a scanner.
Every literal following a gap starts with a non-gap character, so the greedy
`dropWhile` treatment of gaps is exact. -/

/-- Python `\w` for the texts at hand: ASCII alphanumerics, underscore, and
CJK ideographs (U+4E00–U+9FFF), which Python's Unicode `\w` also matches;
CJK punctuation is not a word character in either. -/
def isWordChar (c : Char) : Bool :=
  c.isAlphanum || c = '_' || (decide (19968 ≤ c.toNat) && decide (c.toNat ≤ 40959))

/-- `\b` after a literal ending in a word character. -/
def endBnd : Str → Bool
  | [] => true
  | c :: _ => !isWordChar c

/-- `re.search` of a pattern beginning with `\b` followed by a word
character: try the pattern at every position whose preceding character (if
any) is not a word character. -/
def scanBAux (p : Str → Bool) : Bool → Str → Bool
  | _, [] => false
  | bnd, c :: rest => (bnd && p (c :: rest)) || scanBAux p (!isWordChar c) rest

def searchBnd (p : Str → Bool) (s : Str) : Bool := scanBAux p true s

/-- `re.search` of a pattern with no leading `\b` (patterns here never match
the empty string, so the end position need not be tried). -/
def search (p : Str → Bool) : Str → Bool
  | [] => false
  | c :: rest => p (c :: rest) || search p rest

/-- First match of an `Option`-valued pattern, scanning left to right. -/
def searchO (p : Str → Option Str) : Str → Option Str
  | [] => none
  | c :: rest =>
    match p (c :: rest) with
    | some v => some v
    | none => searchO p rest

/-- `\bW1\s*W2\b`. -/
def bndWordPair (w1 w2 : Str) (s : Str) : Bool :=
  searchBnd (fun t =>
    w1.isPrefixOf t &&
      (w2.isPrefixOf ((t.drop w1.length).dropWhile DatabaseClient.isPyWs) &&
        endBnd (((t.drop w1.length).dropWhile DatabaseClient.isPyWs).drop w2.length))) s

/-- `\bW1\s+W2\b`. -/
def bndWordPair1 (w1 w2 : Str) (s : Str) : Bool :=
  searchBnd (fun t =>
    w1.isPrefixOf t &&
      match t.drop w1.length with
      | c :: rest =>
        DatabaseClient.isPyWs c &&
          (w2.isPrefixOf (rest.dropWhile DatabaseClient.isPyWs) &&
            endBnd ((rest.dropWhile DatabaseClient.isPyWs).drop w2.length))
      | [] => false) s

/-- `\bW\b`. -/
def bndWord (w : Str) (s : Str) : Bool :=
  searchBnd (fun t => w.isPrefixOf t && endBnd (t.drop w.length)) s

/-- `W1\s+W2` (no boundaries). -/
def wordPair1 (w1 w2 : Str) (s : Str) : Bool :=
  search (fun t =>
    w1.isPrefixOf t &&
      match t.drop w1.length with
      | c :: rest =>
        DatabaseClient.isPyWs c && w2.isPrefixOf (rest.dropWhile DatabaseClient.isPyWs)
      | [] => false) s

/-- `W1\s+W2\s+W3` (no boundaries). -/
def wordTriple1 (w1 w2 w3 : Str) (s : Str) : Bool :=
  search (fun t =>
    w1.isPrefixOf t &&
      match t.drop w1.length with
      | c :: rest =>
        DatabaseClient.isPyWs c &&
          (w2.isPrefixOf (rest.dropWhile DatabaseClient.isPyWs) &&
            match (rest.dropWhile DatabaseClient.isPyWs).drop w2.length with
            | c2 :: rest2 =>
              DatabaseClient.isPyWs c2 &&
                w3.isPrefixOf (rest2.dropWhile DatabaseClient.isPyWs)
            | [] => false)
      | [] => false) s

/-- `[+-]\d{1,2}` at the head, greedily, returning the captured offset text.
The qualifier continuation runs after the digits; backtracking from two
digits to one cannot succeed when the second character is a digit (no
qualifier starts with a digit), so greedy-with-one-fallback is exact. -/
def offsetAt (qual : Str → Bool) (s : Str) : Option Str :=
  match s with
  | sign :: d1 :: d2 :: rest =>
    if (sign = '+' || sign = '-') && d1.isDigit then
      if d2.isDigit then
        if qual rest then some [sign, d1, d2] else none
      else if qual (d2 :: rest) then some [sign, d1] else none
    else none
  | [sign, d1] =>
    if (sign = '+' || sign = '-') && d1.isDigit && qual [] then some [sign, d1] else none
  | _ => none

/-- `(utc|gmt)\s*([+-]\d{1,2})` followed by the given continuation after the
captured group (with its own `\s*` when the pattern has one). -/
def tzAt (qual : Str → Bool) (s : Str) : Option Str :=
  if (lc "utc").isPrefixOf s || (lc "gmt").isPrefixOf s then
    offsetAt qual ((s.drop 3).dropWhile DatabaseClient.isPyWs)
  else none

/-- `\s*(required|时区|工作时间|配合)` — the qualifier of the V2EX timezone
pattern. -/
def tzQual (s : Str) : Bool :=
  (lc "required").isPrefixOf (s.dropWhile DatabaseClient.isPyWs) ||
  (lc "时区").isPrefixOf (s.dropWhile DatabaseClient.isPyWs) ||
  (lc "工作时间").isPrefixOf (s.dropWhile DatabaseClient.isPyWs) ||
  (lc "配合").isPrefixOf (s.dropWhile DatabaseClient.isPyWs)

/-- `\s*(required|时区|工作时间)` — the qualifier of the named-timezone
patterns. -/
def namedQual (s : Str) : Bool :=
  (lc "required").isPrefixOf (s.dropWhile DatabaseClient.isPyWs) ||
  (lc "时区").isPrefixOf (s.dropWhile DatabaseClient.isPyWs) ||
  (lc "工作时间").isPrefixOf (s.dropWhile DatabaseClient.isPyWs)

end ReMatch

namespace V2EXScraper

open ReMatch

/-! ### `V2EXScraper._extract_region` (v2ex_scraper.py lines 256-314) -/

/-- `\bus\s*residents?\b`: after `resident`, an optional `s` then a word
boundary (backtracking over the optional `s` cannot succeed, since `t`/`s`
are both word characters). -/
def residentEnd : Str → Bool
  | [] => true
  | c :: rest => if c = 's' then endBnd rest else !isWordChar c

def usResidents (s : Str) : Bool :=
  searchBnd (fun t =>
    (lc "us").isPrefixOf t &&
      ((lc "resident").isPrefixOf ((t.drop 2).dropWhile DatabaseClient.isPyWs) &&
        residentEnd (((t.drop 2).dropWhile DatabaseClient.isPyWs).drop 8))) s

/-- The `us_patterns` list. -/
def usM (t : Str) : Bool :=
  bndWordPair (lc "us") (lc "only") t || bndWordPair (lc "usa") (lc "only") t ||
  bndWordPair (lc "us") (lc "based") t || usResidents t ||
  wordTriple1 (lc "united") (lc "states") (lc "only") t ||
  wordPair1 (lc "america") (lc "only") t ||
  hasSub (lc "仅限美国") t || hasSub (lc "美国地区") t

/-- The `eu_patterns` list. -/
def euM (t : Str) : Bool :=
  bndWordPair (lc "eu") (lc "only") t || bndWordPair (lc "europe") (lc "only") t ||
  bndWordPair1 (lc "european") (lc "only") t || bndWordPair (lc "eu") (lc "based") t ||
  bndWordPair (lc "europe") (lc "based") t || bndWordPair (lc "emea") (lc "only") t ||
  hasSub (lc "仅限欧洲") t || hasSub (lc "欧洲地区") t

/-- The `cn_patterns` list. -/
def cnM (t : Str) : Bool :=
  hasSub (lc "仅限中国") t || hasSub (lc "中国地区") t || hasSub (lc "仅限国内") t ||
  hasSub (lc "国内地区") t || hasSub (lc "限中国大陆") t ||
  bndWordPair (lc "china") (lc "only") t || bndWordPair (lc "china") (lc "based") t

/-- `\basia[\s-]*pacific\s*only\b`. -/
def asiaPacificOnly (s : Str) : Bool :=
  searchBnd (fun t =>
    (lc "asia").isPrefixOf t &&
      ((lc "pacific").isPrefixOf
          ((t.drop 4).dropWhile (fun c => DatabaseClient.isPyWs c || c = '-')) &&
        ((lc "only").isPrefixOf
            ((((t.drop 4).dropWhile (fun c => DatabaseClient.isPyWs c || c = '-')).drop 7).dropWhile
              DatabaseClient.isPyWs) &&
          endBnd
            (((((t.drop 4).dropWhile (fun c => DatabaseClient.isPyWs c || c = '-')).drop 7).dropWhile
                DatabaseClient.isPyWs).drop 4)))) s

/-- The `apac_patterns` list. -/
def apacM (t : Str) : Bool :=
  bndWordPair (lc "apac") (lc "only") t || bndWordPair (lc "asia") (lc "only") t ||
  asiaPacificOnly t || hasSub (lc "仅限亚太") t || hasSub (lc "亚太地区") t

/-- `(utc|gmt)\s*([+-]\d{1,2})\s*(required|时区|工作时间|配合)`, returning the
captured offset. -/
def tzQualSearch (t : Str) : Option Str := searchO (tzAt tzQual) t

def pstQ (t : Str) : Bool :=
  searchBnd (fun s =>
    ((lc "pst").isPrefixOf s && namedQual (s.drop 3)) ||
    ((lc "pacific").isPrefixOf s &&
      match s.drop 7 with
      | c :: rest =>
        DatabaseClient.isPyWs c &&
          ((lc "time").isPrefixOf (rest.dropWhile DatabaseClient.isPyWs) &&
            namedQual ((rest.dropWhile DatabaseClient.isPyWs).drop 4))
      | [] => false)) t

def estQ (t : Str) : Bool :=
  searchBnd (fun s =>
    ((lc "est").isPrefixOf s && namedQual (s.drop 3)) ||
    ((lc "eastern").isPrefixOf s &&
      match s.drop 7 with
      | c :: rest =>
        DatabaseClient.isPyWs c &&
          ((lc "time").isPrefixOf (rest.dropWhile DatabaseClient.isPyWs) &&
            namedQual ((rest.dropWhile DatabaseClient.isPyWs).drop 4))
      | [] => false)) t

/-- `(北京时间|东八区)\s*(工作|配合|required)` (no `\b`). -/
def bjQ (t : Str) : Bool :=
  search (fun s =>
    ((lc "北京时间").isPrefixOf s &&
      ((lc "工作").isPrefixOf ((s.drop 4).dropWhile DatabaseClient.isPyWs) ||
       (lc "配合").isPrefixOf ((s.drop 4).dropWhile DatabaseClient.isPyWs) ||
       (lc "required").isPrefixOf ((s.drop 4).dropWhile DatabaseClient.isPyWs))) ||
    ((lc "东八区").isPrefixOf s &&
      ((lc "工作").isPrefixOf ((s.drop 3).dropWhile DatabaseClient.isPyWs) ||
       (lc "配合").isPrefixOf ((s.drop 3).dropWhile DatabaseClient.isPyWs) ||
       (lc "required").isPrefixOf ((s.drop 3).dropWhile DatabaseClient.isPyWs)))) t

/-- `V2EXScraper._extract_region`: US → EU → CN → APAC → explicit UTC offset
with a qualifier → named timezone with a qualifier → default `CN`. -/
def extractRegion (text : Str) : Str :=
  if usM (lowerL text) then lc "US"
  else if euM (lowerL text) then lc "EU"
  else if cnM (lowerL text) then lc "CN"
  else if apacM (lowerL text) then lc "APAC"
  else
    match tzQualSearch (lowerL text) with
    | some off => lc "UTC" ++ off
    | none =>
      if pstQ (lowerL text) then lc "UTC-8"
      else if estQ (lowerL text) then lc "UTC-5"
      else if bjQ (lowerL text) then lc "UTC+8"
      else lc "CN"

end V2EXScraper

namespace RemoteOKScraper

open ReMatch

/-! ### `RemoteOKScraper._extract_region` (remoteok_scraper.py lines 125-164)

The input is the job item's `location` string, lower-cased. -/

def worldwideAliases : List Str :=
  [lc "worldwide", lc "anywhere", lc "remote", lc "global"]

def usM (loc : Str) : Bool :=
  hasSub (lc "usa") loc || hasSub (lc "us only") loc ||
  hasSub (lc "united states") loc || hasSub (lc "america") loc ||
  hasSub (lc "u.s.") loc

def euM (loc : Str) : Bool :=
  hasSub (lc "europe") loc || hasSub (lc "eu only") loc || hasSub (lc "uk") loc ||
  hasSub (lc "emea") loc || hasSub (lc "european") loc

/-- `re.search(r'\b(asia|apac|asia-pacific)\b', location)`; a match of
`asia-pacific` with boundaries is also a match of `\basia\b`, so the third
alternative is subsumed. -/
def apacM (loc : Str) : Bool :=
  bndWord (lc "asia") loc || bndWord (lc "apac") loc ||
  hasSub (lc "australia") loc || hasSub (lc "latam") loc

/-- `(utc|gmt)\s*([+-]\d{1,2})`, no qualifier. -/
def tzSearch (loc : Str) : Option Str := searchO (tzAt (fun _ => true)) loc

/-- `RemoteOKScraper._extract_region`: worldwide aliases → US → EU → APAC →
UTC offset → bare named timezones (no qualifier) → default `worldwide`.
There is no CN step. -/
def extractRegion (location : Str) : Str :=
  if (lowerL location).isEmpty || worldwideAliases.contains (lowerL location) then
    lc "worldwide"
  else if usM (lowerL location) then lc "US"
  else if euM (lowerL location) then lc "EU"
  else if apacM (lowerL location) then lc "APAC"
  else
    match tzSearch (lowerL location) with
    | some off => lc "UTC" ++ off
    | none =>
      if hasSub (lc "pst") (lowerL location) || hasSub (lc "pacific") (lowerL location) then
        lc "UTC-8"
      else if hasSub (lc "est") (lowerL location) || hasSub (lc "eastern") (lowerL location) then
        lc "UTC-5"
      else if hasSub (lc "cet") (lowerL location) ||
          hasSub (lc "central european") (lowerL location) then
        lc "UTC+1"
      else lc "worldwide"

end RemoteOKScraper

/-- C2: the RemoteOK region extractor violates the claim: a location
consisting of the bare named timezone token `"pst"` — with no
required-style qualifier anywhere — is mapped to `UTC-8` instead of falling
through to the default `worldwide`; and the extractor has no CN step at all,
so the explicit restriction `"china only"` yields `worldwide`, not `CN`. -/
theorem c2_counterexample :
    RemoteOKScraper.extractRegion (lc "pst") = lc "UTC-8" ∧
    lc "UTC-8" ≠ lc "worldwide" ∧
    RemoteOKScraper.extractRegion (lc "china only") = lc "worldwide" := by
  refine ⟨by decide, by decide, by decide⟩

/-- C2 (amended): the V2EX extractor behaves as claimed — named timezone
tokens produce a UTC offset only under a required-style qualifier, a text
matching none of the restriction patterns falls through to the CN default of
this China-market source, and the checks run in the order US, EU, CN, APAC,
timezone, default.  The RemoteOK extractor diverges: it reads only the
location field, checks worldwide-aliases, US, EU, APAC (no CN step), UTC
offsets, and then maps a bare named timezone token with no qualifier to its
UTC offset, defaulting to worldwide. -/
theorem c2_theorem (text loc : Str) :
    (V2EXScraper.usM (lowerL text) = true →
      V2EXScraper.extractRegion text = lc "US") ∧
    (V2EXScraper.usM (lowerL text) = false → V2EXScraper.euM (lowerL text) = true →
      V2EXScraper.extractRegion text = lc "EU") ∧
    (V2EXScraper.usM (lowerL text) = false → V2EXScraper.euM (lowerL text) = false →
      V2EXScraper.cnM (lowerL text) = false → V2EXScraper.apacM (lowerL text) = false →
      V2EXScraper.tzQualSearch (lowerL text) = none →
      V2EXScraper.pstQ (lowerL text) = true →
      V2EXScraper.extractRegion text = lc "UTC-8") ∧
    (V2EXScraper.usM (lowerL text) = false → V2EXScraper.euM (lowerL text) = false →
      V2EXScraper.cnM (lowerL text) = false → V2EXScraper.apacM (lowerL text) = false →
      V2EXScraper.tzQualSearch (lowerL text) = none →
      V2EXScraper.pstQ (lowerL text) = false → V2EXScraper.estQ (lowerL text) = false →
      V2EXScraper.bjQ (lowerL text) = false →
      V2EXScraper.extractRegion text = lc "CN") ∧
    ((lowerL loc).isEmpty = false →
      RemoteOKScraper.worldwideAliases.contains (lowerL loc) = false →
      RemoteOKScraper.usM (lowerL loc) = false → RemoteOKScraper.euM (lowerL loc) = false →
      RemoteOKScraper.apacM (lowerL loc) = false →
      RemoteOKScraper.tzSearch (lowerL loc) = none →
      hasSub (lc "pst") (lowerL loc) = true →
      RemoteOKScraper.extractRegion loc = lc "UTC-8") := by
  refine ⟨?_, ?_, ?_, ?_, ?_⟩
  · intro h
    unfold V2EXScraper.extractRegion
    rw [h]
    rfl
  · intro h1 h2
    unfold V2EXScraper.extractRegion
    rw [h1, h2]
    rfl
  · intro h1 h2 h3 h4 h5 h6
    unfold V2EXScraper.extractRegion
    rw [h1, h2, h3, h4, h5, h6]
    rfl
  · intro h1 h2 h3 h4 h5 h6 h7 h8
    unfold V2EXScraper.extractRegion
    rw [h1, h2, h3, h4, h5, h6, h7, h8]
    rfl
  · intro h1 h2 h3 h4 h5 h6 h7
    unfold RemoteOKScraper.extractRegion
    rw [h1, h2, h3, h4, h5, h6, h7]
    rfl

/-- Witness for C2 at the spec's example inputs: `"Remote (US only)"` → US;
a bare `"PST"` mention with no qualifier → the CN default of the V2EX
extractor; `"PST required"` → UTC-8; location `"pst"` → UTC-8 on RemoteOK. -/
theorem c2_witness :
    V2EXScraper.extractRegion (lc "Remote (US only)") = lc "US" ∧
    V2EXScraper.extractRegion (lc "we mention PST casually") = lc "CN" ∧
    V2EXScraper.extractRegion (lc "need overlap, PST required") = lc "UTC-8" ∧
    RemoteOKScraper.extractRegion (lc "pst") = lc "UTC-8" :=
  ⟨(c2_theorem (lc "Remote (US only)") []).1 (by decide),
   (c2_theorem (lc "we mention PST casually") []).2.2.2.1
     (by decide) (by decide) (by decide) (by decide) (by decide) (by decide)
     (by decide) (by decide),
   (c2_theorem (lc "need overlap, PST required") []).2.2.1
     (by decide) (by decide) (by decide) (by decide) (by decide) (by decide),
   (c2_theorem [] (lc "pst")).2.2.2.2
     (by decide) (by decide) (by decide) (by decide) (by decide) (by decide)
     (by decide)⟩

def c10ex_job : DatabaseClient.JobData :=
  ⟨lc "招聘工程师", lc "", lc "unknown", lc "eleduck"⟩

/-- C10: the taxonomy invariant fails at the insert boundary.  The eleduck
posting `"招聘工程师"` (hiring an engineer, no stack named) passes the
Stage-1 filter, its extracted category is the single sentinel string
`"unknown"` — not a non-empty list of taxonomy keys — and `insert_job`
stores that value as the record's category. -/
theorem c10_counterexample :
    EleduckScraper.isDevJob (lc "招聘工程师") (lc "") = true ∧
    EleduckScraper.extractCategory (lc "招聘工程师") (lc "") = lc "unknown" ∧
    lc "unknown" ∉ AIClassifier.CATEGORY_KEYS ∧
    (DatabaseClient.insertJob [] 0 1 c10ex_job).1 = some 1 ∧
    (DatabaseClient.insertJob [] 0 1 c10ex_job).2.map DatabaseClient.StoredJob.category =
      [lc "unknown"] := by
  refine ⟨by decide, by decide, by decide, rfl, rfl⟩

/-- C10 (amended): every category the eleduck pipeline emits is a single
string drawn from the six extractor keys or the sentinel `"unknown"` (which
is outside the 14-key taxonomy), and a successful `insert_job` appends one
record whose stored category is exactly the job's category string truncated
to 50 characters. -/
theorem c10_theorem (title summary : Str) (store : List DatabaseClient.StoredJob)
    (now : Int) (nextId : Nat) (job : DatabaseClient.JobData) :
    EleduckScraper.extractCategory title summary ∈
      [lc "frontend", lc "backend", lc "fullstack", lc "mobile", lc "devops",
       lc "ai", lc "unknown"] ∧
    (∀ newStore, DatabaseClient.insertJob store now nextId job = (some nextId, newStore) →
      ∃ r, newStore = store ++ [r] ∧
        r.category = job.category.take 50) := by
  constructor
  · unfold EleduckScraper.extractCategory
    split
    · simp
    · split
      · simp
      · split
        · simp
        · split
          · simp
          · split
            · simp
            · split
              · simp
              · simp
  · intro newStore h
    unfold DatabaseClient.insertJob at h
    split at h
    · simp at h
    · split at h
      · simp at h
      · rcases Prod.mk.injEq .. ▸ h with ⟨-, hsnd⟩
        exact ⟨_, hsnd.symm, rfl⟩

def c10w_job : DatabaseClient.JobData :=
  ⟨lc "前端工程师", lc "", lc "frontend", lc "eleduck"⟩

/-- Witness for C10: a frontend eleduck posting's category is one of the
seven extractor values, and inserting it stores the category unchanged. -/
theorem c10_witness :
    EleduckScraper.extractCategory (lc "前端工程师") (lc "") ∈
      [lc "frontend", lc "backend", lc "fullstack", lc "mobile", lc "devops",
       lc "ai", lc "unknown"] ∧
    ∃ r, (DatabaseClient.insertJob [] 0 1 c10w_job).2 = [] ++ [r] ∧
      r.category = c10w_job.category.take 50 :=
  ⟨(c10_theorem (lc "前端工程师") (lc "") [] 0 1 c10w_job).1,
   (c10_theorem (lc "前端工程师") (lc "") [] 0 1 c10w_job).2
     (DatabaseClient.insertJob [] 0 1 c10w_job).2 rfl⟩
